import Mathlib

set_option maxHeartbeats 1000000
set_option linter.unusedVariables false
set_option linter.unnecessarySeqFocus false
set_option linter.unusedTactic false

/-!
Verification development for the htmljs dual-mode rendering engine
(src/html.js and its refactored duplicate variant).

The development shallowly embeds the JavaScript source: JSON-like values
become the inductive `JSValue`, the data-proxy get/set traps become
`proxyGet` / the `proxySet` functions of each variant, `deepMerge` mirrors
the recursive merge, and the two duplicated renderers are embedded
separately (`HtmlJs.render` and `Part1.render`) over a shared DOM model.
-/

/-- Modelled from the spec: evaluators are arbitrary pure functions of the
store slice supplied by user descriptors; the repository does not define
them, so they are modelled as a small language of primitive literals used
in evaluator bodies. -/
inductive PrimVal where
  | pnull
  | pbool (b : Bool)
  | pstr (s : String)
  deriving DecidableEq

/-- Modelled from the spec: body of a pure evaluator, either a dotted
path off the declared parameter or a primitive literal. -/
inductive EvalBody where
  | path (keys : List String)
  | lit (p : PrimVal)
  deriving DecidableEq

/-- Modelled from the spec: a pure arrow-function evaluator `(param) => body`,
a pure function of its declared first parameter. -/
structure Evaluator where
  param : String
  body : EvalBody
  deriving DecidableEq

/-- Source text of a primitive literal. -/
def printPrim : PrimVal → String
  | .pnull => "null"
  | .pbool true => "true"
  | .pbool false => "false"
  | .pstr s => "\"" ++ s ++ "\""

/-- Dot-prefixed concatenation of the keys of an evaluator path. -/
def joinKeys : List String → String
  | [] => ""
  | k :: rest => "." ++ k ++ joinKeys rest

/-- Source text of an evaluator body. -/
def printBody (param : String) : EvalBody → String
  | .path ks => param ++ joinKeys ks
  | .lit p => printPrim p

/-- Source text of an evaluator: `Function.prototype.toString` of the
arrow function, in canonical parenthesised arrow form. -/
def toSource (ev : Evaluator) : String :=
  "(" ++ ev.param ++ ") => " ++ printBody ev.param ev.body

/-- JSON-like JavaScript values, extended with function values (evaluators)
so that descriptor attributes can be function-valued.  `obj` keeps the
insertion order of keys like a JavaScript object. -/
inductive JSValue where
  | null
  | bool (b : Bool)
  | num (n : Int)
  | str (s : String)
  | arr (elems : List JSValue)
  | obj (fields : List (String × JSValue))
  | func (ev : Evaluator)

/-- JavaScript truthiness of a value. -/
def truthy : JSValue → Bool
  | .null => false
  | .bool b => b
  | .num n => n != 0
  | .str s => s != ""
  | _ => true

/-- Whether `typeof v === "object"` holds (true for null, arrays and
plain objects). -/
def typeofIsObject : JSValue → Bool
  | .null => true
  | .arr _ => true
  | .obj _ => true
  | _ => false

/-- Decimal parse of a nonempty all-digit key, the numeric-index reading
of a JavaScript property key (`String.toNat?` semantics over the
character list). -/
def jsToNat? (s : String) : Option Nat :=
  match s.data with
  | [] => none
  | cs =>
      if cs.all (fun c => c.isDigit) then
        some (cs.foldl (fun acc c => acc * 10 + (c.toNat - 48)) 0)
      else none

/-- First-match lookup in an ordered association list of object fields. -/
def lookupF (k : String) : List (String × JSValue) → Option JSValue
  | [] => none
  | (k1, v) :: rest => if k1 = k then some v else lookupF k rest

/-- Property assignment on an ordered field list: overwrite in place if the
key exists, append otherwise (JavaScript object key order). -/
def setF (k : String) (v : JSValue) : List (String × JSValue) → List (String × JSValue)
  | [] => [(k, v)]
  | (k1, v1) :: rest => if k1 = k then (k1, v) :: rest else (k1, v1) :: setF k v rest

/-- Element assignment in an array, padding holes with null. -/
def setIdx : List JSValue → Nat → JSValue → List JSValue
  | [], 0, v => [v]
  | [], i + 1, v => .null :: setIdx [] i v
  | _ :: rest, 0, v => v :: rest
  | x :: rest, i + 1, v => x :: setIdx rest i v

/-- Property assignment `t[k] = v` on a JavaScript value.  Assignment to a
primitive target is a no-op here (merge targets are always objects or
arrays in the source). -/
def jsSetProp : JSValue → String → JSValue → JSValue
  | .obj fs, k, v => .obj (setF k v fs)
  | .arr xs, k, v =>
      match jsToNat? k with
      | some i => .arr (setIdx xs i v)
      | none => .arr xs
  | t, _, _ => t

/-- Result of a property access `base[k]`: accessing a property of null
throws, a missing property reads as undefined. -/
inductive PropRes where
  | thrown
  | undef
  | val (v : JSValue)

/-- Own-property access `base[k]` (prototype methods are not modelled;
string and array index/length properties are). -/
def getProp : JSValue → String → PropRes
  | .null, _ => .thrown
  | .bool _, _ => .undef
  | .num _, _ => .undef
  | .func _, k => if k = "length" then .val (.num 1) else .undef
  | .str s, k =>
      if k = "length" then .val (.num s.length)
      else
        match jsToNat? k with
        | some i =>
            match s.data.get? i with
            | some c => .val (.str c.toString)
            | none => .undef
        | none => .undef
  | .arr xs, k =>
      if k = "length" then .val (.num xs.length)
      else
        match jsToNat? k with
        | some i =>
            match xs.get? i with
            | some v => .val v
            | none => .undef
        | none => .undef
  | .obj fs, k =>
      match lookupF k fs with
      | none => .undef
      | some v => .val v

/-- Result of the data-proxy `get` trap: either a value (null doubling as
the explicit absent result) or a thrown TypeError. -/
inductive GetRes where
  | thrown
  | val (v : JSValue)

/-- The traversal loop of the proxy `get` trap: walk the split keys,
returning null as soon as a segment reads as undefined. -/
def walkKeys : JSValue → List String → GetRes
  | cur, [] => .val cur
  | cur, k :: ks =>
      match getProp cur k with
      | .thrown => .thrown
      | .undef => .val .null
      | .val v => walkKeys v ks

/-- Split a character list on dots, exactly as
`String.prototype.split(".")` segments a string (the empty string yields
one empty segment). -/
def splitDots : List Char → List (List Char)
  | [] => [[]]
  | c :: rest =>
      if c = '.' then [] :: splitDots rest
      else
        match splitDots rest with
        | s :: ss => (c :: s) :: ss
        | [] => [c :: rest]

/-- The data-proxy `get` trap (`createDataProxy`, src/html.js lines 55-69
and src/unnamed/part_001 lines 74-88): split the listenerId on `.` and
traverse the target, returning null if any part of the path does not
exist. -/
def proxyGet (target : List (String × JSValue)) (listenerId : String) : GetRes :=
  walkKeys (.obj target) ((splitDots listenerId.data).map String.mk)

/-- Index-keyed fields produced by enumerating an array, as spread and
for-in do. -/
def indexedFields : Nat → List JSValue → List (String × JSValue)
  | _, [] => []
  | i, x :: rest => (toString i, x) :: indexedFields (i + 1) rest

/-- Index-keyed fields produced by enumerating a string's characters. -/
def indexedChars : Nat → List Char → List (String × JSValue)
  | _, [] => []
  | i, c :: rest => (toString i, .str c.toString) :: indexedChars (i + 1) rest

/-- Object spread `{ ...v }`: copies the own enumerable properties of `v`
into a fresh object; primitives and null spread to the empty object. -/
def spreadToObj : JSValue → JSValue
  | .obj fs => .obj fs
  | .arr xs => .obj (indexedFields 0 xs)
  | .str s => .obj (indexedChars 0 s.data)
  | _ => .obj []

mutual

/-- The recursive merge of `html.js` `deepMerge(target, source)`
(src/html.js lines 35-47, src/unnamed/part_001 lines 42-54): for each own
enumerable key of the source (object fields, array indices, string
character indices; primitives enumerate nothing), a truthy object-typed
source value is merged recursively into an object-typed slot (created
fresh otherwise), any other value is assigned directly. -/
def deepMerge : JSValue → JSValue → JSValue
  | t, .obj fs => deepMergeFields t fs
  | t, .arr xs => deepMergeElems t 0 xs
  | t, .str s => deepMergeChars t 0 s.data
  | t, _ => t
termination_by t s => (sizeOf s, 0)
decreasing_by all_goals simp_wf <;> omega

/-- One `for (const key in source)` iteration of `deepMerge`. -/
def deepMergeStep (t : JSValue) (k : String) (v : JSValue) : JSValue :=
  if truthy v && typeofIsObject v then
    let keep :=
      match getProp t k with
      | .val w => truthy w && typeofIsObject w
      | _ => false
    let t1 := if keep then t else jsSetProp t k (.obj [])
    let cur :=
      match getProp t1 k with
      | .val w => w
      | _ => .null
    jsSetProp t1 k (deepMerge cur v)
  else jsSetProp t k v
termination_by (sizeOf v, 1)
decreasing_by all_goals simp_wf <;> omega

/-- `deepMerge` loop over the fields of an object source. -/
def deepMergeFields : JSValue → List (String × JSValue) → JSValue
  | t, [] => t
  | t, (k, v) :: rest => deepMergeFields (deepMergeStep t k v) rest
termination_by t l => (sizeOf l, 2)
decreasing_by all_goals simp_wf <;> omega

/-- `deepMerge` loop over the indexed elements of an array source. -/
def deepMergeElems : JSValue → Nat → List JSValue → JSValue
  | t, _, [] => t
  | t, i, x :: rest => deepMergeElems (deepMergeStep t (toString i) x) (i + 1) rest
termination_by t i l => (sizeOf l, 2)
decreasing_by all_goals simp_wf <;> omega

/-- `deepMerge` loop over the indexed characters of a string source; a
single-character string source value is truthy and non-object, so each
iteration is the direct-assignment branch of the merge step. -/
def deepMergeChars : JSValue → Nat → List Char → JSValue
  | t, _, [] => t
  | t, i, c :: rest => deepMergeChars (jsSetProp t (toString i) (.str c.toString)) (i + 1) rest
termination_by t i l => (sizeOf l, 2)
decreasing_by all_goals simp_wf <;> omega

end

/-- Enumerable own properties of a value in for-in / spread order. -/
def jsEnumPairs : JSValue → List (String × JSValue)
  | .obj fs => fs
  | .arr xs => indexedFields 0 xs
  | .str s => indexedChars 0 s.data
  | _ => []

/-- `Object.keys(v)`. -/
def jsKeys (v : JSValue) : List String :=
  (jsEnumPairs v).map Prod.fst

/-- Strict equality test `v === null`. -/
def isNullV : JSValue → Bool
  | .null => true
  | _ => false

/-- Strict equality test `v === 0` (used for the renderer's depth check). -/
def isNum0 : JSValue → Bool
  | .num n => n == 0
  | _ => false

/-- Property read defaulting to null for undefined (used where the source
only tests truthiness of an absent property). -/
def propOr (v : JSValue) (k : String) : JSValue :=
  match getProp v k with
  | .val w => w
  | _ => .null

mutual

/-- JavaScript `String(v)` coercion for the values this engine stores into
DOM attributes and text nodes. -/
def jsToString : JSValue → String
  | .null => "null"
  | .bool true => "true"
  | .bool false => "false"
  | .num n => toString n
  | .str s => s
  | .arr xs => jsArrToString xs
  | .obj _ => "[object Object]"
  | .func ev => toSource ev
termination_by v => (sizeOf v, 0)
decreasing_by all_goals simp_wf <;> omega

/-- Array `toString`: elements joined with commas. -/
def jsArrToString : List JSValue → String
  | [] => ""
  | [x] => jsElemToString x
  | x :: rest => jsElemToString x ++ "," ++ jsArrToString rest
termination_by l => (sizeOf l, 2)
decreasing_by all_goals simp_wf <;> omega

/-- A null array element stringifies to the empty string. -/
def jsElemToString : JSValue → String
  | .null => ""
  | v => jsToString v
termination_by v => (sizeOf v, 1)
decreasing_by all_goals simp_wf <;> omega

end

/-- The JavaScript expression `d + 1` for the depth values the renderers
pass around (objects and arrays coerce to strings, null to 0). -/
def jsAdd1 : JSValue → JSValue
  | .null => .num 1
  | .bool b => .num (if b then 2 else 1)
  | .num n => .num (n + 1)
  | .str s => .str (s ++ "1")
  | .arr xs => .str (jsToString (.arr xs) ++ "1")
  | .obj fs => .str (jsToString (.obj fs) ++ "1")
  | .func ev => .str (toSource ev ++ "1")

/-- Interpretation of a primitive evaluator literal as a value. -/
def primToJS : PrimVal → JSValue
  | .pnull => .null
  | .pbool b => .bool b
  | .pstr s => .str s

/-- Modelled from the spec: evaluation of a pure evaluator body; a dotted
path walks object fields, reading null when a segment is missing or the
current value is not an object. -/
def walkOwnPath : JSValue → List String → JSValue
  | v, [] => v
  | .obj fs, k :: ks =>
      match lookupF k fs with
      | some w => walkOwnPath w ks
      | none => .null
  | _, _ :: _ => .null

/-- Modelled from the spec: applying an evaluator to the store slice it
was bound to. -/
def evalEvaluator (ev : Evaluator) (input : JSValue) : JSValue :=
  match ev.body with
  | .path ks => walkOwnPath input ks
  | .lit p => primToJS p

/-- Character-level body of `camelToHyphen` (src/html.js lines 111-113):
every upper-case letter becomes a hyphen plus its lower-case form. -/
def camelToHyphenChars : List Char → List Char
  | [] => []
  | c :: rest =>
      if c.isUpper then '-' :: c.toLower :: camelToHyphenChars rest
      else c :: camelToHyphenChars rest

/-- `camelToHyphen` of both variants. -/
def camelToHyphen (s : String) : String :=
  String.mk (camelToHyphenChars s.data)

/-- The `isCamelCase` test `/[a-z][A-Z]/.test(str)` used when persisting a
bound property name server-side. -/
def isCamelCaseChars : List Char → Bool
  | [] => false
  | [_] => false
  | a :: b :: rest => (a.isLower && b.isUpper) || isCamelCaseChars (b :: rest)

/-- The bootstrap script's `hyphenToCamelCase`: a global replacement of a
hyphen followed by a lower-case letter with that letter upper-cased. -/
def hyphenToCamelChars : List Char → List Char
  | [] => []
  | '-' :: c :: rest =>
      if c.isLower then c.toUpper :: hyphenToCamelChars rest
      else '-' :: hyphenToCamelChars (c :: rest)
  | c :: rest => c :: hyphenToCamelChars rest

/-- String form of the bootstrap script's `hyphenToCamelCase`. -/
def hyphenToCamelCase (s : String) : String :=
  String.mk (hyphenToCamelChars s.data)

/-- JavaScript regex whitespace class `\s` (common members). -/
def jsWSChar (c : Char) : Bool :=
  c = ' ' || c = '\t' || c = '\n' || c = '\r' || c = '\x0b' || c = '\x0c'

/-- The `function\s*\(` alternative of the recognition pattern. -/
def functionHeadMatch (cs : List Char) : Bool :=
  "function".data.isPrefixOf cs &&
    ((cs.drop 8).dropWhile jsWSChar).head? == some '('

/-- The `\(\s*[^\)]*\)\s*=>` alternative of the recognition pattern. -/
def arrowHeadMatch (cs : List Char) : Bool :=
  if cs.head? = some '(' then
    let rest2 := cs.tail.dropWhile (fun c => c != ')')
    if rest2.head? = some ')' then
      (rest2.tail.dropWhile jsWSChar).take 2 == ['=', '>']
    else false
  else false

/-- `isStringifiedFunction` (src/html.js lines 319-326, src/unnamed/part_001
lines 422-428): true exactly when the value is a string matching
`/^\s*(function\s*\(|\(\s*[^\)]*\)\s*=>)/`. -/
def isStringifiedFunction : JSValue → Bool
  | .str s =>
      let cs := s.data.dropWhile jsWSChar
      functionHeadMatch cs || arrowHeadMatch cs
  | _ => false

/-- Characters allowed inside a JavaScript identifier (ASCII subset). -/
def identCharB (c : Char) : Bool :=
  c.isAlpha || c.isDigit || c == '_' || c == '$'

/-- A valid identifier character list: nonempty, starting with a letter,
underscore or dollar. -/
def validIdentChars : List Char → Bool
  | [] => false
  | c :: rest => (c.isAlpha || c == '_' || c == '$') && rest.all identCharB

/-- A valid evaluator parameter name: an identifier that is not one of the
literal keywords of the evaluator language. -/
def validIdent (s : String) : Bool :=
  validIdentChars s.data && !(s = "true" || s = "false" || s = "null")

/-- Modelled from the spec: parsing of an evaluator body by the JavaScript
engine (the Function constructor is not part of src/). -/
def parseBody (param : List Char) (bs : List Char) : Option EvalBody :=
  if bs.head? = some '"' then
    let content := bs.tail.takeWhile (fun c => c != '"')
    let rest2 := bs.tail.drop content.length
    if rest2 = ['"'] then some (.lit (.pstr (String.mk content))) else none
  else if bs = "true".data then some (.lit (.pbool true))
  else if bs = "false".data then some (.lit (.pbool false))
  else if bs = "null".data then some (.lit .pnull)
  else
    match splitDots bs with
    | [] => none
    | seg :: segs =>
        if seg = param && segs.all validIdentChars then
          some (.path (segs.map String.mk))
        else none

/-- Modelled from the spec: the JavaScript `Function` constructor used by
`parseStringifiedFunction` and by the hydration bootstrap to reconstruct
an evaluator from source text; it accepts the canonical parenthesised
arrow form produced by `toSource` and fails (throws) on anything else. -/
def parseEvaluatorSource (s : String) : Option Evaluator :=
  if s.data.head? = some '(' then
    let rest := s.data.tail
    let p := rest.takeWhile (fun c => c != ')')
    let rest2 := rest.drop p.length
    if rest2.take 5 = [')', ' ', '=', '>', ' '] then
      let body := rest2.drop 5
      if validIdentChars p then
        match parseBody p body with
        | some b => some ⟨String.mk p, b⟩
        | none => none
      else none
    else none
  else none

/-- `parseStringifiedFunction` (src/html.js lines 334-340, src/unnamed/part_001
lines 435-440): converts a recognised stringified function back to a
function via the Function constructor and throws
`Invalid stringified function` on anything unrecognised. -/
def parseStringifiedFunction (v : JSValue) : Except String Evaluator :=
  if isStringifiedFunction v then
    match v with
    | .str s =>
        (match parseEvaluatorSource s with
          | some ev => .ok ev
          | none => .error "SyntaxError")
    | _ => .error "SyntaxError"
  else .error "Invalid stringified function"

/-- JavaScript `indexOf` over characters: index of the first occurrence or
-1. -/
def jsIndexOfChar (cs : List Char) (c : Char) : Int :=
  match cs.indexOf? c with
  | some i => (i : Int)
  | none => -1

/-- JavaScript `String.prototype.slice` index normalisation. -/
def jsSliceNorm (len : Nat) (x : Int) : Nat :=
  if x < 0 then ((len : Int) + x).toNat else min x.toNat len

/-- JavaScript `String.prototype.slice` over characters. -/
def jsSliceChars (cs : List Char) (a b : Int) : List Char :=
  let lo := jsSliceNorm cs.length a
  let hi := jsSliceNorm cs.length b
  (cs.take hi).drop lo

/-- The renderer's listenerId extraction (src/html.js lines 356-362,
src/unnamed/part_001 lines 451-457): slice the function source between the
first `(` and the first `)`, split on commas, trim the first entry. -/
def extractFirstParam (src : String) : String :=
  let cs := src.data
  let sliced := jsSliceChars cs (jsIndexOfChar cs '(' + 1) (jsIndexOfChar cs ')')
  (String.mk (sliced.takeWhile (fun c => c != ','))).trim

/-- The listenerId argument of `setElementAttribute`: either the extracted
parameter name or the literal null, which property access coerces to the
string key "null". -/
def listenerKey : Option String → String
  | some s => s
  | none => "null"

/-- Generic first-match lookup in a string-keyed association list. -/
def alookup {α : Type} (k : String) : List (String × α) → Option α
  | [] => none
  | (k1, v) :: rest => if k1 = k then some v else alookup k rest

/-- Generic in-place-or-append assignment in a string-keyed association
list. -/
def aset {α : Type} (k : String) (v : α) : List (String × α) → List (String × α)
  | [] => [(k, v)]
  | (k1, v1) :: rest => if k1 = k then (k1, v) :: rest else (k1, v1) :: aset k v rest

/-- Generic removal of a key from a string-keyed association list. -/
def aerase {α : Type} (k : String) : List (String × α) → List (String × α)
  | [] => []
  | (k1, v1) :: rest => if k1 = k then rest else (k1, v1) :: aerase k rest

/-- Lookup in a node-id-keyed association list. -/
def nlookup {α : Type} (k : Nat) : List (Nat × α) → Option α
  | [] => none
  | (k1, v) :: rest => if k1 = k then some v else nlookup k rest

/-- A live element render target: tag, namespace, attributes (stringified,
in attribute order), child node ids, and the last raw markup assigned via
innerHTML. -/
structure ElemData where
  tag : String
  ns : String
  attrs : List (String × String)
  children : List Nat
  inner : Option String
  deriving DecidableEq

/-- A DOM node: an element or a text node. -/
inductive DomNode where
  | elem (e : ElemData)
  | text (s : String)
  deriving DecidableEq

/-- The document: a heap of nodes addressed by id plus a fresh-id counter
(nodes stay in the heap when detached, as JavaScript objects do). -/
structure Dom where
  nodes : List (Nat × DomNode)
  nextId : Nat
  deriving DecidableEq

/-- The empty document. -/
def emptyDom : Dom := ⟨[], 0⟩

/-- Find a node by id. -/
def domFind (d : Dom) (id : Nat) : Option DomNode :=
  nlookup id d.nodes

/-- Update the element data of a node in place. -/
def domUpdate (d : Dom) (id : Nat) (f : ElemData → ElemData) : Dom :=
  ⟨d.nodes.map (fun p =>
      if p.1 = id then (p.1, (match p.2 with | .elem e => .elem (f e) | n => n)) else p),
    d.nextId⟩

/-- `document.createElementNS`. -/
def domCreateElem (d : Dom) (ns tag : String) : Nat × Dom :=
  (d.nextId, ⟨d.nodes ++ [(d.nextId, .elem ⟨tag, ns, [], [], none⟩)], d.nextId + 1⟩)

/-- `document.createTextNode`. -/
def domCreateText (d : Dom) (s : String) : Nat × Dom :=
  (d.nextId, ⟨d.nodes ++ [(d.nextId, .text s)], d.nextId + 1⟩)

/-- `element.appendChild`. -/
def domAppendChild (d : Dom) (p c : Nat) : Dom :=
  domUpdate d p (fun e => { e with children := e.children ++ [c] })

/-- `element.prepend`. -/
def domPrependChild (d : Dom) (p c : Nat) : Dom :=
  domUpdate d p (fun e => { e with children := c :: e.children })

/-- `element.childNodes` (ids, in order). -/
def domChildNodes (d : Dom) (id : Nat) : List Nat :=
  match domFind d id with
  | some (.elem e) => e.children
  | _ => []

/-- Whether a node id refers to an element node. -/
def isElemNode (d : Dom) (id : Nat) : Bool :=
  match domFind d id with
  | some (.elem _) => true
  | _ => false

/-- `element.children.length`: the number of element children (text nodes
are not counted). -/
def domElemChildCount (d : Dom) (id : Nat) : Nat :=
  ((domChildNodes d id).filter (fun c => isElemNode d c)).length

/-- The attribute write of `setElementAttribute`'s default branch: remove
the attribute, then set it to the stringified value (`setAttributeNS(null, k, v)`
for keys with an upper-case letter and `setAttribute(k, v)` otherwise
coincide in this model). -/
def domSetAttr (d : Dom) (el : Nat) (key : String) (value : JSValue) : Dom :=
  domUpdate (domUpdate d el (fun e => { e with attrs := aerase key e.attrs })) el
    (fun e => { e with attrs := aset key (jsToString value) e.attrs })

/-- The textContent branch: clear the text content, then append one fresh
text node holding the stringified value. -/
def domTextContent (d : Dom) (el : Nat) (value : JSValue) : Dom :=
  let d1 := domUpdate d el (fun e => { e with children := [], inner := none })
  let (tid, d2) := domCreateText d1 (jsToString value)
  domAppendChild d2 el tid

/-- The innerHTML branch: clear, then assign the raw markup (both variants
net to a single assignment of the stringified value). -/
def domInnerHTML (d : Dom) (el : Nat) (value : JSValue) : Dom :=
  domUpdate d el (fun e => { e with children := [], inner := some (jsToString value) })

/-- `getNamespace` (identical in both variants): exact-tag-name namespace
selection with the XHTML default. -/
def getNamespace (tagName : String) : String :=
  if tagName = "svg" then "http://www.w3.org/2000/svg"
  else if tagName = "math" then "http://www.w3.org/1998/Math/MathML"
  else if tagName = "xlink" then "http://www.w3.org/1999/xlink"
  else if tagName = "xml" then "http://www.w3.org/XML/1998/namespace"
  else if tagName = "xmlns" then "http://www.w3.org/2000/xmlns/"
  else "http://www.w3.org/1999/xhtml"

/-- The style string computed by the style branch (identical in both
variants): a string value passes through, an object-typed value
contributes `property:value;` pairs with camel-cased keys hyphenated
unless they already contain a hyphen, anything else gives the empty
string. -/
def styleString (value : JSValue) : String :=
  match value with
  | .str s => s
  | v =>
      if typeofIsObject v then
        (jsEnumPairs v).foldl
          (fun acc kv =>
            acc ++ (if kv.1.contains '-' then kv.1 else camelToHyphen kv.1) ++ ":" ++
              jsToString kv.2 ++ ";")
          ""
      else ""

/-- Errors thrown by the embedded JavaScript: reference errors on
undeclared identifiers, type errors, other thrown errors, and exhaustion
of the recursion fuel. -/
inductive JErr where
  | refError (name : String)
  | typeError (msg : String)
  | jsError (msg : String)
  | fuel
  deriving DecidableEq

/-- The `func` member of a binding registry entry: a live function or the
serialized source string of one. -/
inductive BFunc where
  | bfn (ev : Evaluator)
  | bsrc (s : String)
  deriving DecidableEq

/-- A binding registry entry `{element, func, property}`. -/
structure Binding where
  element : Nat
  func : BFunc
  property : String
  deriving DecidableEq

/-- The mutable rendering state: the binding registry (keyed by the
literal tether string) and the document. -/
structure RSt where
  bindings : List (String × List Binding)
  dom : Dom
  deriving DecidableEq

/-- The result of a render call: null, undefined, or a node. -/
inductive RenderResult where
  | rnull
  | rundef
  | node (id : Nat)
  deriving DecidableEq

/-- Registering a client-side binding: create the entry list for the
tether key if missing, then push. -/
def pushBinding (st : RSt) (lid : String) (b : Binding) : RSt :=
  ⟨aset lid ((alookup lid st.bindings).getD [] ++ [b]) st.bindings, st.dom⟩

/-- `clearChildren` (src/html.js lines 511-528, src/unnamed/part_001 lines
549-566, identical): for each direct child node, drop every binding entry
whose element is that child, then remove the child. -/
def clearChildren (el : Nat) (st : RSt) : RSt :=
  let kids := domChildNodes st.dom el
  let bindings2 :=
    kids.foldl
      (fun bs c => bs.map (fun kv => (kv.1, kv.2.filter (fun b => b.element != c))))
      st.bindings
  let dom2 := domUpdate st.dom el (fun e => { e with children := kids.foldl (fun l c => l.erase c) e.children })
  ⟨bindings2, dom2⟩

/-- The process-wide store plus rendering state (`this.data` target object,
`this.bindings`, and the document). -/
structure AppSt where
  data : List (String × JSValue)
  rst : RSt

namespace HtmlJs

/-- The sequence of children iterated by the for loop of the children
branch: the value itself for `children` (index iteration bounded by its
length property), the one-element sequence for `child`. -/
def childrenSeq (key : String) (value : JSValue) : List JSValue :=
  if key = "children" then
    match value with
    | .arr xs => xs
    | .str s => s.data.map (fun c => .str c.toString)
    | .obj fs =>
        (match lookupF "length" fs with
          | some (.num n) => (List.range n.toNat).map (fun i => (lookupF (toString i) fs).getD .null)
          | _ => [])
    | _ => []
  else [value]

mutual

/-- Client-mode `render` of src/html.js (lines 266-509, isServer = false):
prune on a present falsy `if`, return a text node for strings, create the
element, process every own key, then hit the tail, whose references to the
undeclared identifier `data` throw a ReferenceError whenever the callback
argument is truthy or the depth argument is strictly 0. -/
def render : Nat → List (String × JSValue) → JSValue → JSValue → JSValue → RSt →
    Except JErr (RenderResult × RSt)
  | 0, _, _, _, _, _ => .error .fuel
  | n + 1, dataT, template, callback, depth, st =>
      if isNullV template then .ok (.rnull, st)
      else if (jsKeys template).contains "if" && !truthy (propOr template "if") then
        .ok (.rnull, st)
      else
        match template with
        | .str s =>
            let (tid, d) := domCreateText st.dom s
            .ok (.node tid, ⟨st.bindings, d⟩)
        | _ =>
            let tagName :=
              match getProp template "tagName" with
              | .val v => jsToString v
              | _ => "div"
            let (el, d) := domCreateElem st.dom (getNamespace tagName) tagName
            match attrLoop n dataT el (jsEnumPairs template) depth ⟨st.bindings, d⟩ with
            | .error e => .error e
            | .ok ((), st2) =>
                if truthy callback then .error (.refError "data")
                else if isNum0 depth then .error (.refError "data")
                else .ok (.node el, st2)
termination_by fuel _ _ _ _ _ => (fuel, 0, 0)

/-- The `for (var key in template)` loop of `render`: recognise and parse
stringified functions, register a binding and evaluate for function
values, apply non-null values through `setElementAttribute`. -/
def attrLoop (fuel : Nat) (dataT : List (String × JSValue)) (el : Nat)
    (pairs : List (String × JSValue)) (depth : JSValue) (st : RSt) :
    Except JErr (Unit × RSt) :=
  match pairs with
  | [] => .ok ((), st)
  | (key, v0) :: rest =>
      let conv : Except JErr JSValue :=
        if isStringifiedFunction v0 then
          match parseStringifiedFunction v0 with
          | .ok ev => .ok (.func ev)
          | .error msg => .error (.jsError msg)
        else .ok v0
      match conv with
      | .error e => .error e
      | .ok value =>
          match value with
          | .func ev =>
              let listenerId := extractFirstParam (toSource ev)
              let st1 := pushBinding st listenerId ⟨el, .bfn ev, key⟩
              (match proxyGet dataT listenerId with
                | .thrown => .error (.typeError "get")
                | .val dv =>
                    let result := evalEvaluator ev dv
                    if isNullV result then attrLoop fuel dataT el rest depth st1
                    else
                      match setElementAttribute fuel dataT el key result (some listenerId) depth st1 with
                      | .error e => .error e
                      | .ok ((), st2) => attrLoop fuel dataT el rest depth st2)
          | _ =>
              if isNullV value then attrLoop fuel dataT el rest depth st
              else
                match setElementAttribute fuel dataT el key value none depth st with
                | .error e => .error e
                | .ok ((), st2) => attrLoop fuel dataT el rest depth st2
termination_by (fuel, 3, pairs.length)

/-- `setElementAttribute` of src/html.js (lines 115-232): the shared
attribute application routine.  The object-valued prepend/append branches
evaluate the undeclared identifier `data` and therefore throw. -/
def setElementAttribute (fuel : Nat) (dataT : List (String × JSValue)) (el : Nat) (key : String)
    (value : JSValue) (listenerId : Option String) (depth : JSValue) (st : RSt) :
    Except JErr (Unit × RSt) :=
  match proxyGet dataT (listenerKey listenerId) with
  | .thrown => .error (.typeError "get")
  | .val listener =>
      if key != "children" && key != "prepend" && key != "append" && key != "child" &&
          key != "tagName" && key != "textContent" && key != "innerHTML" && key != "if" &&
          key != "style" then
        .ok ((), ⟨st.bindings, domSetAttr st.dom el key value⟩)
      else if key = "style" then
        .ok ((), ⟨st.bindings,
          domUpdate st.dom el (fun e => { e with attrs := aset "style" (styleString value) e.attrs })⟩)
      else if key = "innerHTML" then
        .ok ((), ⟨st.bindings, domInnerHTML st.dom el value⟩)
      else if key = "prepend" then
        if !typeofIsObject value then
          let (tid, d) := domCreateText st.dom (jsToString value)
          .ok ((), ⟨st.bindings, domPrependChild d el tid⟩)
        else .error (.refError "data")
      else if key = "children" || key = "child" then
        let st1 :=
          if domElemChildCount st.dom el > 0 || isNullV value then clearChildren el st else st
        if isNullV value then .ok ((), st1)
        else renderChildrenLoop fuel dataT el (childrenSeq key value) listener st1
      else if key = "textContent" then
        .ok ((), ⟨st.bindings, domTextContent st.dom el value⟩)
      else if key = "append" then
        if !typeofIsObject value then
          let (tid, d) := domCreateText st.dom (jsToString value)
          .ok ((), ⟨st.bindings, domAppendChild d el tid⟩)
        else .error (.refError "data")
      else .ok ((), st)
termination_by (fuel, 2, 0)

/-- The child-render loop of the children branch: each child renders with
the listener slice passed as the callback argument and a null depth, and
non-null results are appended. -/
def renderChildrenLoop (fuel : Nat) (dataT : List (String × JSValue)) (el : Nat)
    (children : List JSValue) (listener : JSValue) (st : RSt) : Except JErr (Unit × RSt) :=
  match children with
  | [] => .ok ((), st)
  | child :: rest =>
      match render fuel dataT child listener .null st with
      | .error e => .error e
      | .ok (res, st1) =>
          let st2 :=
            match res with
            | .node cid => ⟨st1.bindings, domAppendChild st1.dom el cid⟩
            | _ => st1
          renderChildrenLoop fuel dataT el rest listener st2
termination_by (fuel, 1, children.length)

/-- `emitBinding` of src/html.js (lines 239-254): recover the function
(parsing its source when serialized), evaluate it against the store's
current value at the tether, and re-apply through `setElementAttribute`
with depth 0. -/
def emitBinding (fuel : Nat) (dataT : List (String × JSValue)) (listenerId : String) (b : Binding)
    (st : RSt) : Except JErr (Unit × RSt) :=
  let funcE : Except JErr Evaluator :=
    match b.func with
    | .bsrc s =>
        (match parseEvaluatorSource s with
          | some ev => .ok ev
          | none => .error (.jsError "SyntaxError"))
    | .bfn ev => .ok ev
  match funcE with
  | .error e => .error e
  | .ok ev =>
      match proxyGet dataT listenerId with
      | .thrown => .error (.typeError "get")
      | .val dv =>
          setElementAttribute fuel dataT b.element b.property (evalEvaluator ev dv)
            (some listenerId) (.num 0) st
termination_by (fuel, 4, 0)

/-- The `bindings.forEach(binding => emitBinding(...))` loop of the proxy
`set` trap. -/
def emitLoop (fuel : Nat) (dataT : List (String × JSValue)) (listenerId : String)
    (bs : List Binding) (st : RSt) : Except JErr (Unit × RSt) :=
  match bs with
  | [] => .ok ((), st)
  | b :: rest =>
      match emitBinding fuel dataT listenerId b st with
      | .error e => .error e
      | .ok ((), st1) => emitLoop fuel dataT listenerId rest st1
termination_by (fuel, 5, bs.length)

end

/-- The data-proxy `set` trap of src/html.js (lines 70-92): spread the
current value at the literal key into a fresh object, deep-merge the
written value into it, store it under the literal key, then emit every
binding registered under exactly that key, in order. -/
def proxySet (fuel : Nat) (app : AppSt) (listenerId : String) (value : JSValue) :
    Except JErr (Bool × AppSt) :=
  match proxyGet app.data listenerId with
  | .thrown => .error (.typeError "get")
  | .val old =>
      let merged := deepMerge (spreadToObj old) value
      let data2 := setF listenerId merged app.data
      match alookup listenerId app.rst.bindings with
      | none => .ok (true, ⟨data2, app.rst⟩)
      | some bs =>
          match emitLoop fuel data2 listenerId bs app.rst with
          | .error e => .error e
          | .ok ((), st2) => .ok (true, ⟨data2, st2⟩)

end HtmlJs

/-- The listenerId argument seen as a JavaScript value (for the
argument-shuffled helper calls of the refactored variant). -/
def lidToJS : Option String → JSValue
  | some s => .str s
  | none => .null

/-- Modelled platform `document.querySelector` restricted to tag-name
selectors: the first element in the heap whose tag equals the selector. -/
def domQuerySelector (d : Dom) (sel : String) : Option Nat :=
  (d.nodes.find? (fun p => match p.2 with | .elem e => e.tag = sel | _ => false)).map Prod.fst

namespace Part1

/-- `setAttribute` of src/unnamed/part_001 (lines 209-217): remove then
set, upper-case keys going through the namespaced path (identical effect
in this model). -/
def setAttribute (d : Dom) (el : Nat) (key : String) (value : JSValue) : Dom :=
  domSetAttr d el key value

/-- `setStyle` (lines 225-236). -/
def setStyle (d : Dom) (el : Nat) (value : JSValue) : Dom :=
  domUpdate d el (fun e => { e with attrs := aset "style" (styleString value) e.attrs })

/-- `setInnerHTML` (lines 244-247). -/
def setInnerHTML (d : Dom) (el : Nat) (value : JSValue) : Dom :=
  domInnerHTML d el value

/-- `setTextContent` (lines 294-297). -/
def setTextContent (d : Dom) (el : Nat) (value : JSValue) : Dom :=
  domTextContent d el value

mutual

/-- Client-mode `render` of src/unnamed/part_001 (lines 347-398): falsy
templates render to null, a present `if` prunes only when strictly false,
strings become text nodes, otherwise the element is created, every own
key processed, and a truthy callbackOrQuery is invoked (functions) or
used as a query selector, leaving the return value undefined. -/
def render : Nat → List (String × JSValue) → JSValue → JSValue → JSValue → RSt →
    Except JErr (RenderResult × RSt)
  | 0, _, _, _, _, _ => .error .fuel
  | n + 1, dataT, template, callbackOrQuery, depth, st =>
      if !truthy template then .ok (.rnull, st)
      else if (match getProp template "if" with | .val (.bool false) => true | _ => false) then
        .ok (.rnull, st)
      else
        match template with
        | .str s =>
            let (tid, d) := domCreateText st.dom s
            .ok (.node tid, ⟨st.bindings, d⟩)
        | _ =>
            let tagV := propOr template "tagName"
            let tagName := if truthy tagV then jsToString tagV else "div"
            let (el, d) := domCreateElem st.dom (getNamespace tagName) tagName
            match attrLoop n dataT el (jsEnumPairs template) depth ⟨st.bindings, d⟩ with
            | .error e => .error e
            | .ok ((), st2) =>
                if truthy callbackOrQuery then
                  match callbackOrQuery with
                  | .func _ => .ok (.rundef, st2)
                  | q =>
                      match domQuerySelector st2.dom (jsToString q) with
                      | some target => .ok (.rundef, ⟨st2.bindings, domAppendChild st2.dom target el⟩)
                      | none => .error (.typeError "querySelector")
                else .ok (.node el, st2)
termination_by fuel _ _ _ _ _ => (fuel, 0, 0)

/-- The `Object.keys(template).forEach` loop of the refactored `render`
(lines 370-382). -/
def attrLoop (fuel : Nat) (dataT : List (String × JSValue)) (el : Nat)
    (pairs : List (String × JSValue)) (depth : JSValue) (st : RSt) :
    Except JErr (Unit × RSt) :=
  match pairs with
  | [] => .ok ((), st)
  | (key, v0) :: rest =>
      let conv : Except JErr JSValue :=
        if isStringifiedFunction v0 then
          match parseStringifiedFunction v0 with
          | .ok ev => .ok (.func ev)
          | .error msg => .error (.jsError msg)
        else .ok v0
      match conv with
      | .error e => .error e
      | .ok value =>
          match value with
          | .func ev =>
              (match processFunctionValue fuel dataT el key ev depth st with
                | .error e => .error e
                | .ok ((), st2) => attrLoop fuel dataT el rest depth st2)
          | _ =>
              if isNullV value then attrLoop fuel dataT el rest depth st
              else
                match setElementAttribute fuel dataT el key value none depth st with
                | .error e => .error e
                | .ok ((), st2) => attrLoop fuel dataT el rest depth st2
termination_by (fuel, 5, pairs.length)

/-- `processFunctionValue` (lines 450-477): extract the tether from the
function source, register the client binding, evaluate once, and apply a
non-null result. -/
def processFunctionValue (fuel : Nat) (dataT : List (String × JSValue)) (el : Nat) (key : String)
    (ev : Evaluator) (depth : JSValue) (st : RSt) : Except JErr (Unit × RSt) :=
  let listenerId := extractFirstParam (toSource ev)
  let st1 := pushBinding st listenerId ⟨el, .bfn ev, key⟩
  match proxyGet dataT listenerId with
  | .thrown => .error (.typeError "get")
  | .val dv =>
      let result := evalEvaluator ev dv
      if isNullV result then .ok ((), st1)
      else setElementAttribute fuel dataT el key result (some listenerId) depth st1
termination_by (fuel, 4, 0)

/-- `setElementAttribute` of src/unnamed/part_001 (lines 170-200): the
dispatcher.  `prependChild` and `appendChild` are declared with one fewer
parameter than they are passed, so their depth parameter receives the
listenerId; `setChildren` is declared with two fewer, so its depth
parameter receives the listener value. -/
def setElementAttribute (fuel : Nat) (dataT : List (String × JSValue)) (el : Nat) (key : String)
    (value : JSValue) (listenerId : Option String) (depth : JSValue) (st : RSt) :
    Except JErr (Unit × RSt) :=
  match proxyGet dataT (listenerKey listenerId) with
  | .thrown => .error (.typeError "get")
  | .val listener =>
      if !(["children", "prepend", "append", "child", "tagName", "textContent", "innerHTML",
            "if", "style"].contains key) then
        .ok ((), ⟨st.bindings, setAttribute st.dom el key value⟩)
      else if key = "style" then .ok ((), ⟨st.bindings, setStyle st.dom el value⟩)
      else if key = "innerHTML" then .ok ((), ⟨st.bindings, setInnerHTML st.dom el value⟩)
      else if key = "prepend" then prependChild fuel dataT el value (lidToJS listenerId) st
      else if key = "children" || key = "child" then
        setChildren fuel dataT el key value listener st
      else if key = "textContent" then .ok ((), ⟨st.bindings, setTextContent st.dom el value⟩)
      else if key = "append" then appendChild fuel dataT el value (lidToJS listenerId) st
      else .ok ((), st)
termination_by (fuel, 3, 0)

/-- `prependChild` (lines 256-265): non-objects prepend as text, objects
render (with the shuffled depth) and prepend. -/
def prependChild (fuel : Nat) (dataT : List (String × JSValue)) (el : Nat) (value : JSValue)
    (depth : JSValue) (st : RSt) : Except JErr (Unit × RSt) :=
  if !typeofIsObject value then
    let (tid, d) := domCreateText st.dom (jsToString value)
    .ok ((), ⟨st.bindings, domPrependChild d el tid⟩)
  else
    match render fuel dataT value .null (jsAdd1 depth) st with
    | .error e => .error e
    | .ok (res, st1) =>
        match res with
        | .node cid => .ok ((), ⟨st1.bindings, domPrependChild st1.dom el cid⟩)
        | _ => .ok ((), st1)
termination_by (fuel, 2, 0)

/-- `appendChild` (lines 306-315). -/
def appendChild (fuel : Nat) (dataT : List (String × JSValue)) (el : Nat) (value : JSValue)
    (depth : JSValue) (st : RSt) : Except JErr (Unit × RSt) :=
  if !typeofIsObject value then
    let (tid, d) := domCreateText st.dom (jsToString value)
    .ok ((), ⟨st.bindings, domAppendChild d el tid⟩)
  else
    match render fuel dataT value .null (jsAdd1 depth) st with
    | .error e => .error e
    | .ok (res, st1) =>
        match res with
        | .node cid => .ok ((), ⟨st1.bindings, domAppendChild st1.dom el cid⟩)
        | _ => .ok ((), st1)
termination_by (fuel, 2, 0)

/-- `setChildren` (lines 274-286): clear when needed, then `forEach` over
the children value, which throws a TypeError when it is not an array. -/
def setChildren (fuel : Nat) (dataT : List (String × JSValue)) (el : Nat) (key : String)
    (value : JSValue) (depth : JSValue) (st : RSt) : Except JErr (Unit × RSt) :=
  let st1 :=
    if domElemChildCount st.dom el > 0 || isNullV value then clearChildren el st else st
  if isNullV value then .ok ((), st1)
  else
    match (if key = "children" then value else .arr [value]) with
    | .arr xs => childLoop fuel dataT el xs depth st1
    | _ => .error (.typeError "forEach")
termination_by (fuel, 2, 0)

/-- The `children.forEach` rendering loop of `setChildren`. -/
def childLoop (fuel : Nat) (dataT : List (String × JSValue)) (el : Nat) (xs : List JSValue)
    (depth : JSValue) (st : RSt) : Except JErr (Unit × RSt) :=
  match xs with
  | [] => .ok ((), st)
  | child :: rest =>
      match render fuel dataT child .null (jsAdd1 depth) st with
      | .error e => .error e
      | .ok (res, st1) =>
          let st2 :=
            match res with
            | .node cid => ⟨st1.bindings, domAppendChild st1.dom el cid⟩
            | _ => st1
          childLoop fuel dataT el rest depth st2
termination_by (fuel, 1, xs.length)

end

/-- `emitBinding` of src/unnamed/part_001 (lines 322-337), textually the
same as the html.js one but dispatching into the refactored
`setElementAttribute`. -/
def emitBinding (fuel : Nat) (dataT : List (String × JSValue)) (listenerId : String) (b : Binding)
    (st : RSt) : Except JErr (Unit × RSt) :=
  let funcE : Except JErr Evaluator :=
    match b.func with
    | .bsrc s =>
        (match parseEvaluatorSource s with
          | some ev => .ok ev
          | none => .error (.jsError "SyntaxError"))
    | .bfn ev => .ok ev
  match funcE with
  | .error e => .error e
  | .ok ev =>
      match proxyGet dataT listenerId with
      | .thrown => .error (.typeError "get")
      | .val dv =>
          setElementAttribute fuel dataT b.element b.property (evalEvaluator ev dv)
            (some listenerId) (.num 0) st

/-- The notification loop of the refactored `set` trap. -/
def emitLoop (fuel : Nat) (dataT : List (String × JSValue)) (listenerId : String)
    (bs : List Binding) (st : RSt) : Except JErr (Unit × RSt) :=
  match bs with
  | [] => .ok ((), st)
  | b :: rest =>
      match emitBinding fuel dataT listenerId b st with
      | .error e => .error e
      | .ok ((), st1) => emitLoop fuel dataT listenerId rest st1

/-- The data-proxy `set` trap of src/unnamed/part_001 (lines 99-121),
textually the same as the html.js one. -/
def proxySet (fuel : Nat) (app : AppSt) (listenerId : String) (value : JSValue) :
    Except JErr (Bool × AppSt) :=
  match proxyGet app.data listenerId with
  | .thrown => .error (.typeError "get")
  | .val old =>
      let merged := deepMerge (spreadToObj old) value
      let data2 := setF listenerId merged app.data
      match alookup listenerId app.rst.bindings with
      | none => .ok (true, ⟨data2, app.rst⟩)
      | some bs =>
          match emitLoop fuel data2 listenerId bs app.rst with
          | .error e => .error e
          | .ok ((), st2) => .ok (true, ⟨data2, st2⟩)

end Part1

/-- An element carrying hydration attributes, as the bootstrap script's
`querySelectorAll("[data-listener-id]")` scan sees it. -/
structure ScanElem where
  el : Nat
  listenerId : String
  attrs : List (String × String)

/-- One attribute step of the hydration bootstrap scan (the generated
script of src/html.js lines 451-474): a `data-bind-to-` attribute has its
property name recovered (camel-cased unless it is a `data-` name) and its
value reconstructed by the Function constructor; any reconstruction
failure is caught and just that one binding is skipped. -/
def scanAttr (el : Nat) (bnd : List Binding) (name value : String) : List Binding :=
  if "data-bind-to-".data.isPrefixOf name.data then
    let p := String.mk (name.data.drop "data-bind-to-".data.length)
    let property := if "data-".data.isPrefixOf p.data then p else hyphenToCamelCase p
    match parseEvaluatorSource value with
    | some ev => bnd ++ [⟨el, .bfn ev, property⟩]
    | none => bnd
  else bnd

/-- The per-element step of the hydration scan (src/html.js lines 439-475):
ensure the entry list for the element's tether exists, then fold over its
attributes. -/
def hydrateElem (bnds : List (String × List Binding)) (e : ScanElem) :
    List (String × List Binding) :=
  aset e.listenerId
    (e.attrs.foldl (fun b kv => scanAttr e.el b kv.1 kv.2) ((alookup e.listenerId bnds).getD []))
    bnds

/-- The hydration bootstrap's reconstruction scan over all elements
carrying a `data-listener-id` attribute. -/
def hydrationScan (bnds : List (String × List Binding)) (es : List ScanElem) :
    List (String × List Binding) :=
  es.foldl hydrateElem bnds


mutual

/-- Recursively null-free values: no stored null anywhere in the tree. -/
def nullFreeV : JSValue → Bool
  | .null => false
  | .obj fs => nullFreeFields fs
  | .arr xs => nullFreeElems xs
  | _ => true
termination_by v => (sizeOf v, 0)
decreasing_by all_goals simp_wf <;> omega

/-- Null-freedom of an object's fields. -/
def nullFreeFields : List (String × JSValue) → Bool
  | [] => true
  | (_, v) :: rest => nullFreeV v && nullFreeFields rest
termination_by l => (sizeOf l, 1)
decreasing_by all_goals simp_wf <;> omega

/-- Null-freedom of an array's elements. -/
def nullFreeElems : List JSValue → Bool
  | [] => true
  | v :: rest => nullFreeV v && nullFreeElems rest
termination_by l => (sizeOf l, 1)
decreasing_by all_goals simp_wf <;> omega

end

theorem strMk_data (s : String) : String.mk s.data = s := rfl

theorem splitDots_ne_nil : ∀ cs : List Char, splitDots cs ≠ []
  | [] => by simp [splitDots]
  | c :: rest => by
      simp only [splitDots]
      by_cases h : c = '.'
      · simp [h]
      · simp only [h, if_false]
        cases hs : splitDots rest <;> simp

theorem splitDots_no_dot : ∀ cs : List Char, cs.contains '.' = false → splitDots cs = [cs]
  | [], _ => rfl
  | c :: rest, h => by
      rw [List.contains_cons] at h
      simp only [Bool.or_eq_false_iff] at h
      have hcne : ¬(c = '.') := by
        intro hh
        rw [hh] at h
        simp at h
      simp only [splitDots, hcne, if_false]
      rw [splitDots_no_dot rest h.2]

theorem lookupF_setF_self (k : String) (v : JSValue) :
    ∀ l, lookupF k (setF k v l) = some v
  | [] => by simp [setF, lookupF]
  | (k1, v1) :: rest => by
      by_cases h : k1 = k
      · simp [setF, lookupF, h]
      · simp [setF, lookupF, h, lookupF_setF_self k v rest]

theorem lookupF_setF_ne (k k1 : String) (v : JSValue) (hne : k1 ≠ k) :
    ∀ l, lookupF k1 (setF k v l) = lookupF k1 l
  | [] => by
      have h1 : ¬(k = k1) := fun hh => hne hh.symm
      simp [setF, lookupF, h1]
  | (k2, v2) :: rest => by
      have h1 : ¬(k = k1) := fun hh => hne hh.symm
      by_cases h : k2 = k
      · subst h
        simp [setF, lookupF, h1]
      · simp [setF, lookupF, h, lookupF_setF_ne k k1 v hne rest]

/-- A hook name (dot-free key) reads back without traversal: the stored
value when present, null otherwise. -/
theorem proxyGet_hook (target : List (String × JSValue)) (h : String)
    (hdot : h.data.contains '.' = false) :
    proxyGet target h = .val ((lookupF h target).getD .null) := by
  unfold proxyGet
  rw [splitDots_no_dot h.data hdot]
  simp only [List.map, strMk_data]
  show walkKeys (.obj target) [h] = _
  simp only [walkKeys, getProp]
  cases hl : lookupF h target
  · simp
  · simp [walkKeys]

theorem nullFree_lookup {fs : List (String × JSValue)} {k : String} {v : JSValue}
    (hf : nullFreeFields fs = true) (hl : lookupF k fs = some v) : nullFreeV v = true := by
  induction fs with
  | nil => simp [lookupF] at hl
  | cons kv rest ih =>
      obtain ⟨k1, v1⟩ := kv
      rw [nullFreeFields] at hf
      simp only [Bool.and_eq_true] at hf
      by_cases h : k1 = k
      · simp [lookupF, h] at hl
        rw [← hl]
        exact hf.1
      · rw [lookupF] at hl
        simp only [h, if_false] at hl
        exact ih hf.2 hl

theorem nullFree_get {xs : List JSValue} {i : Nat} {v : JSValue}
    (hf : nullFreeElems xs = true) (hl : xs.get? i = some v) : nullFreeV v = true := by
  induction xs generalizing i with
  | nil => simp at hl
  | cons x rest ih =>
      rw [nullFreeElems] at hf
      simp only [Bool.and_eq_true] at hf
      cases i with
      | zero =>
          simp [List.get?] at hl
          rw [← hl]
          exact hf.1
      | succ j =>
          simp only [List.get?] at hl
          exact ih hf.2 hl

theorem getProp_val_nullFree {cur : JSValue} {k : String} {v : JSValue}
    (hf : nullFreeV cur = true) (hg : getProp cur k = .val v) : nullFreeV v = true := by
  cases cur with
  | null => simp [nullFreeV] at hf
  | bool b => simp [getProp] at hg
  | num n => simp [getProp] at hg
  | func ev =>
      rw [getProp] at hg
      split at hg
      · cases hg
        simp [nullFreeV]
      · cases hg
  | str s =>
      rw [getProp] at hg
      split at hg
      · cases hg
        simp [nullFreeV]
      · split at hg
        · split at hg
          · cases hg
            simp [nullFreeV]
          · cases hg
        · cases hg
  | arr xs =>
      rw [getProp] at hg
      rw [nullFreeV] at hf
      split at hg
      · cases hg
        simp [nullFreeV]
      · split at hg
        next i hn =>
          cases hc : xs.get? i with
          | none => rw [hc] at hg; cases hg
          | some w =>
              rw [hc] at hg
              cases hg
              exact nullFree_get hf hc
        next => cases hg
  | obj fs =>
      rw [getProp] at hg
      rw [nullFreeV] at hf
      cases hl : lookupF k fs with
      | none => rw [hl] at hg; cases hg
      | some w =>
          rw [hl] at hg
          cases hg
          exact nullFree_lookup hf hl

theorem getProp_thrown_null {cur : JSValue} {k : String}
    (hg : getProp cur k = .thrown) : cur = .null := by
  cases cur with
  | null => rfl
  | bool b => simp [getProp] at hg
  | num n => simp [getProp] at hg
  | func ev =>
      rw [getProp] at hg
      split at hg
      · cases hg
      · cases hg
  | str s =>
      rw [getProp] at hg
      split at hg
      · cases hg
      · split at hg
        · split at hg
          · cases hg
          · cases hg
        · cases hg
  | arr xs =>
      rw [getProp] at hg
      split at hg
      · cases hg
      · split at hg
        next i hn =>
          cases hc : xs.get? i with
          | none => rw [hc] at hg; cases hg
          | some w => rw [hc] at hg; cases hg
        next => cases hg
  | obj fs =>
      rw [getProp] at hg
      cases hl : lookupF k fs with
      | none => rw [hl] at hg; cases hg
      | some w => rw [hl] at hg; cases hg

theorem walkKeys_not_thrown : ∀ (ks : List String) (cur : JSValue),
    nullFreeV cur = true → walkKeys cur ks ≠ .thrown
  | [], cur, _ => by simp [walkKeys]
  | k :: ks, cur, hf => by
      rw [walkKeys]
      cases hg : getProp cur k with
      | thrown =>
          have hc := getProp_thrown_null hg
          rw [hc] at hf
          simp [nullFreeV] at hf
      | undef => simp
      | val v => exact walkKeys_not_thrown ks v (getProp_val_nullFree hf hg)

/-- C4 counterexample: with `{b: null}` stored under hook `a`, the read
`a.b.c` indexes into the stored null and throws a TypeError instead of
returning the absent result. -/
theorem c4_counterexample :
    proxyGet [("a", .obj [("b", .null)])] "a.b.c" = .thrown := by
  unfold proxyGet
  rw [show splitDots "a.b.c".data = ["a".data, "b".data, "c".data] from rfl]
  rfl

/-- C4 (amended): on an empty store every tether reads as the explicit
absent result, and reads never throw provided the store holds no stored
null values; a stored null at an intermediate segment (the
counterexample) is the one way a read can throw. -/
theorem c4_amended :
    (∀ t : String, proxyGet [] t = .val .null) ∧
    (∀ (target : List (String × JSValue)) (t : String),
      nullFreeFields target = true → proxyGet target t ≠ .thrown) := by
  constructor
  · intro t
    unfold proxyGet
    cases hs : splitDots t.data with
    | nil => exact absurd hs (splitDots_ne_nil t.data)
    | cons s ss => simp [walkKeys, getProp, lookupF]
  · intro target t hf
    unfold proxyGet
    apply walkKeys_not_thrown
    rw [nullFreeV]
    exact hf

/-- C4 witness: a concrete null-free store on which an unreachable tether
read is safe. -/
theorem c4_witness :
    nullFreeFields [("user", .obj [("name", .str "Ann")])] = true ∧
    proxyGet [("user", .obj [("name", .str "Ann")])] "user.missing.x" ≠ .thrown := by
  constructor
  · simp [nullFreeFields, nullFreeV, nullFreeElems]
  · exact c4_amended.2 [("user", .obj [("name", .str "Ann")])] "user.missing.x"
      (by simp [nullFreeFields, nullFreeV, nullFreeElems])

theorem keys_contains_of_lookup : ∀ (fs : List (String × JSValue)) (k : String) (v : JSValue),
    lookupF k fs = some v → ((fs.map Prod.fst).contains k) = true
  | [], k, v, h => by simp [lookupF] at h
  | (k1, v1) :: rest, k, v, h => by
      rw [List.map, List.contains_cons]
      by_cases heq : k1 = k
      · subst heq
        simp
      · rw [lookupF] at h
        simp only [heq, if_false] at h
        rw [keys_contains_of_lookup rest k v h]
        simp

/-- C5: a descriptor whose `if` key holds false renders to nothing in both
variants: the result is null and the whole state (bindings registry and
document) is untouched, whatever the descendants hold. -/
theorem c5_prune (fuel : Nat) (dataT : List (String × JSValue)) (fs : List (String × JSValue))
    (cb d : JSValue) (st : RSt) (hif : lookupF "if" fs = some (.bool false)) :
    HtmlJs.render (fuel + 1) dataT (.obj fs) cb d st = .ok (.rnull, st) ∧
    Part1.render (fuel + 1) dataT (.obj fs) cb d st = .ok (.rnull, st) := by
  have hcont : ((fs.map Prod.fst).contains "if") = true :=
    keys_contains_of_lookup fs "if" _ hif
  have hp : propOr (.obj fs) "if" = .bool false := by
    simp [propOr, getProp, hif]
  constructor
  · have hcond : (((jsKeys (.obj fs)).contains "if") && !truthy (propOr (.obj fs) "if")) = true := by
      rw [hp]
      show (((fs.map Prod.fst).contains "if") && !truthy (.bool false)) = true
      rw [hcont]
      rfl
    simp only [HtmlJs.render]
    rw [if_neg (by simp [isNullV]), if_pos hcond]
  · have hcond : (match getProp (.obj fs) "if" with
        | .val (.bool false) => true | _ => false) = true := by
      simp [getProp, hif]
    simp only [Part1.render]
    rw [if_neg (by simp [truthy]), if_pos hcond]

/-- C5 witness: a pruned descriptor whose descendants carry an evaluator
registers nothing and produces nothing. -/
theorem c5_witness :
    lookupF "if" [("if", .bool false),
        ("children", .arr [.obj [("textContent", .func ⟨"person", .path ["name"]⟩)]])] =
      some (.bool false) ∧
    HtmlJs.render 1 [] (.obj [("if", .bool false),
        ("children", .arr [.obj [("textContent", .func ⟨"person", .path ["name"]⟩)]])])
        .null (.num 0) ⟨[], emptyDom⟩ = .ok (.rnull, ⟨[], emptyDom⟩) ∧
    Part1.render 1 [] (.obj [("if", .bool false),
        ("children", .arr [.obj [("textContent", .func ⟨"person", .path ["name"]⟩)]])])
        .null (.num 0) ⟨[], emptyDom⟩ = .ok (.rnull, ⟨[], emptyDom⟩) := by
  refine ⟨rfl, ?_, ?_⟩
  · exact (c5_prune 0 [] [("if", .bool false),
      ("children", .arr [.obj [("textContent", .func ⟨"person", .path ["name"]⟩)]])]
      .null (.num 0) ⟨[], emptyDom⟩ rfl).1
  · exact (c5_prune 0 [] [("if", .bool false),
      ("children", .arr [.obj [("textContent", .func ⟨"person", .path ["name"]⟩)]])]
      .null (.num 0) ⟨[], emptyDom⟩ rfl).2

/-- C9: a write to a hook with no registered bindings updates the store
(the hook reads back as the merged slice) and leaves the binding registry
and the document exactly as they were — no evaluator runs, no render
target changes. -/
theorem c9_write_without_bindings (fuel : Nat) (app : AppSt) (h : String) (v : JSValue)
    (hdot : h.data.contains '.' = false)
    (hb : (alookup h app.rst.bindings).getD [] = []) :
    HtmlJs.proxySet fuel app h v =
      .ok (true, ⟨setF h (deepMerge (spreadToObj ((lookupF h app.data).getD .null)) v) app.data,
        app.rst⟩) ∧
    proxyGet (setF h (deepMerge (spreadToObj ((lookupF h app.data).getD .null)) v) app.data) h =
      .val (deepMerge (spreadToObj ((lookupF h app.data).getD .null)) v) := by
  constructor
  · rw [HtmlJs.proxySet, proxyGet_hook app.data h hdot]
    cases halk : alookup h app.rst.bindings with
    | none => simp
    | some bs =>
        rw [halk] at hb
        simp only [Option.getD_some] at hb
        subst hb
        simp [HtmlJs.emitLoop]
  · rw [proxyGet_hook _ h hdot, lookupF_setF_self]
    rfl

/-- C9 witness: a concrete write on a store with one binding under a
different hook. -/
theorem c9_witness :
    "user".data.contains '.' = false ∧
    (alookup "user" [("other", [⟨0, .bfn ⟨"other", .path []⟩, "textContent"⟩])]).getD
      ([] : List Binding) = [] ∧
    HtmlJs.proxySet 1
      ⟨[], ⟨[("other", [⟨0, .bfn ⟨"other", .path []⟩, "textContent"⟩])], emptyDom⟩⟩
      "user" (.obj [("name", .str "Ann")]) =
      .ok (true, ⟨[("user", deepMerge (spreadToObj .null) (.obj [("name", .str "Ann")]))],
        ⟨[("other", [⟨0, .bfn ⟨"other", .path []⟩, "textContent"⟩])], emptyDom⟩⟩) := by
  refine ⟨rfl, rfl, ?_⟩
  exact (c9_write_without_bindings 1
    ⟨[], ⟨[("other", [⟨0, .bfn ⟨"other", .path []⟩, "textContent"⟩])], emptyDom⟩⟩
    "user" (.obj [("name", .str "Ann")]) rfl rfl).1

/-- Whether a value is a plain object. -/
def isObjV : JSValue → Bool
  | .obj _ => true
  | _ => false

/-- The claim's scalar-or-array side condition: a value that is not a
plain object (and not a function). -/
def isScalarOrArr : JSValue → Bool
  | .num _ => true
  | .bool _ => true
  | .null => true
  | .str _ => true
  | .arr _ => true
  | _ => false

/-- Scalars with no own enumerable properties (for-in enumerates
nothing). -/
def noEnumScalar : JSValue → Bool
  | .num _ => true
  | .bool _ => true
  | .null => true
  | _ => false

theorem spreadToObj_isObj (old : JSValue) : ∃ fs, spreadToObj old = .obj fs := by
  cases old <;> exact ⟨_, rfl⟩

theorem deepMergeStep_obj (fs : List (String × JSValue)) (k : String) (v : JSValue) :
    ∃ gs, deepMergeStep (.obj fs) k v = .obj gs := by
  rw [deepMergeStep]
  split
  all_goals try dsimp only
  all_goals repeat' split
  all_goals exact ⟨_, rfl⟩

theorem deepMergeFields_obj : ∀ (l : List (String × JSValue)) (fs : List (String × JSValue)),
    ∃ gs, deepMergeFields (.obj fs) l = .obj gs
  | [], fs => ⟨fs, by rw [deepMergeFields]⟩
  | (k, v) :: rest, fs => by
      rw [deepMergeFields]
      obtain ⟨gs, hg⟩ := deepMergeStep_obj fs k v
      rw [hg]
      exact deepMergeFields_obj rest gs

theorem deepMergeElems_obj : ∀ (l : List JSValue) (i : Nat) (fs : List (String × JSValue)),
    ∃ gs, deepMergeElems (.obj fs) i l = .obj gs
  | [], i, fs => ⟨fs, by rw [deepMergeElems]⟩
  | x :: rest, i, fs => by
      rw [deepMergeElems]
      obtain ⟨gs, hg⟩ := deepMergeStep_obj fs (toString i) x
      rw [hg]
      exact deepMergeElems_obj rest (i + 1) gs

theorem deepMergeChars_obj : ∀ (l : List Char) (i : Nat) (fs : List (String × JSValue)),
    ∃ gs, deepMergeChars (.obj fs) i l = .obj gs
  | [], i, fs => ⟨fs, by rw [deepMergeChars]⟩
  | c :: rest, i, fs => by
      rw [deepMergeChars]
      exact deepMergeChars_obj rest (i + 1) (setF (toString i) (.str c.toString) fs)

theorem deepMerge_obj (s : JSValue) (fs : List (String × JSValue)) :
    ∃ gs, deepMerge (.obj fs) s = .obj gs := by
  cases s with
  | obj fs2 => rw [deepMerge]; exact deepMergeFields_obj fs2 fs
  | arr xs => rw [deepMerge]; exact deepMergeElems_obj xs 0 fs
  | str s2 => rw [deepMerge]; exact deepMergeChars_obj s2.data 0 fs
  | null => exact ⟨fs, by simp [deepMerge]⟩
  | bool b => exact ⟨fs, by simp [deepMerge]⟩
  | num n => exact ⟨fs, by simp [deepMerge]⟩
  | func ev => exact ⟨fs, by simp [deepMerge]⟩

/-- C3 counterexample: on an empty store, `write("h", 5)` stores the empty
object, and the subsequent read yields `{}`, not the written scalar — the
slice is not replaced outright by the scalar. -/
theorem c3_counterexample :
    HtmlJs.proxySet 1 ⟨[], ⟨[], emptyDom⟩⟩ "h" (.num 5) =
      .ok (true, ⟨[("h", .obj [])], ⟨[], emptyDom⟩⟩) ∧
    proxyGet [("h", .obj [])] "h" = .val (.obj []) ∧
    JSValue.obj [] ≠ JSValue.num 5 := by
  refine ⟨?_, rfl, fun hcontra => JSValue.noConfusion hcontra⟩
  have hget : proxyGet [] "h" = .val .null := rfl
  have hm : deepMerge (spreadToObj .null) (.num 5) = .obj [] := by
    show deepMerge (.obj []) (.num 5) = .obj []
    simp [deepMerge]
  rw [HtmlJs.proxySet, hget]
  simp only [hm]
  rfl

/-- C3 (amended): a write whose partial is a scalar, string or array never
replaces the slice with that value: the stored slice is always a plain
object (the spread-copy of the prior slice with the partial's enumerable
properties merged in), so the subsequent read never returns the written
scalar/array; on a hook with no existing slice, a number, boolean or null
partial stores exactly the empty object. -/
theorem c3_amended :
    (∀ (fuel : Nat) (app : AppSt) (h : String) (v : JSValue),
      h.data.contains '.' = false →
      (alookup h app.rst.bindings).getD [] = [] →
      isScalarOrArr v = true →
      ∃ gs, HtmlJs.proxySet fuel app h v =
          .ok (true, ⟨setF h (.obj gs) app.data, app.rst⟩) ∧
        JSValue.obj gs ≠ v) ∧
    (∀ (fuel : Nat) (app : AppSt) (h : String) (v : JSValue),
      h.data.contains '.' = false →
      (alookup h app.rst.bindings).getD [] = [] →
      lookupF h app.data = none →
      noEnumScalar v = true →
      HtmlJs.proxySet fuel app h v = .ok (true, ⟨setF h (.obj []) app.data, app.rst⟩)) := by
  constructor
  · intro fuel app h v hdot hb hscal
    obtain ⟨sfs, hs⟩ := spreadToObj_isObj ((lookupF h app.data).getD .null)
    obtain ⟨gs, hg⟩ := deepMerge_obj v sfs
    refine ⟨gs, ?_, ?_⟩
    · rw [HtmlJs.proxySet, proxyGet_hook app.data h hdot]
      simp only [hs, hg]
      cases halk : alookup h app.rst.bindings with
      | none => simp
      | some bs =>
          rw [halk] at hb
          simp only [Option.getD_some] at hb
          subst hb
          simp [HtmlJs.emitLoop]
    · intro hcontra
      rw [← hcontra] at hscal
      simp [isScalarOrArr] at hscal
  · intro fuel app h v hdot hb hnone hscal
    have hs : spreadToObj ((lookupF h app.data).getD .null) = .obj [] := by
      rw [hnone]
      rfl
    have hm : deepMerge (.obj []) v = .obj [] := by
      cases v <;> simp [noEnumScalar] at hscal <;> simp [deepMerge]
    rw [HtmlJs.proxySet, proxyGet_hook app.data h hdot]
    simp only [hs, hm]
    cases halk : alookup h app.rst.bindings with
    | none => simp
    | some bs =>
        rw [halk] at hb
        simp only [Option.getD_some] at hb
        subst hb
        simp [HtmlJs.emitLoop]

/-- C3 witness: concrete scalar and array writes on the empty store. -/
theorem c3_witness :
    "h".data.contains '.' = false ∧
    (alookup "h" ([] : List (String × List Binding))).getD [] = [] ∧
    lookupF "h" [] = none ∧
    noEnumScalar (.num 5) = true ∧
    isScalarOrArr (.arr [.num 1]) = true ∧
    HtmlJs.proxySet 3 ⟨[], ⟨[], emptyDom⟩⟩ "h" (.num 5) =
      .ok (true, ⟨setF "h" (.obj []) [], ⟨[], emptyDom⟩⟩) ∧
    ∃ gs, HtmlJs.proxySet 3 ⟨[], ⟨[], emptyDom⟩⟩ "h" (.arr [.num 1]) =
        .ok (true, ⟨setF "h" (.obj gs) [], ⟨[], emptyDom⟩⟩) ∧
      JSValue.obj gs ≠ .arr [.num 1] := by
  refine ⟨rfl, rfl, rfl, rfl, rfl, ?_, ?_⟩
  · exact c3_amended.2 3 ⟨[], ⟨[], emptyDom⟩⟩ "h" (.num 5) rfl rfl rfl rfl
  · exact c3_amended.1 3 ⟨[], ⟨[], emptyDom⟩⟩ "h" (.arr [.num 1]) rfl rfl rfl

/-- C1 counterexample: with one binding registered under hook `h` whose
target property is `child`, a write of a slice whose evaluator result is
an object makes the re-application path render a child descriptor with a
truthy listener as callback, which evaluates the undeclared identifier
`data` and throws — the write raises a ReferenceError instead of applying
each recomputed value and returning. -/
theorem c1_counterexample :
    HtmlJs.proxySet 1
      ⟨[], ⟨[("h", [⟨0, .bfn ⟨"h", .path []⟩, "child"⟩])],
        ⟨[(0, .elem ⟨"div", "http://www.w3.org/1999/xhtml", [], [], none⟩)], 1⟩⟩⟩
      "h" (.obj [("x", .num 1)]) = .error (.refError "data") ∧
    alookup "h" [("h", [⟨0, .bfn ⟨"h", .path []⟩, "child"⟩])] =
      some [(⟨0, .bfn ⟨"h", .path []⟩, "child"⟩ : Binding)] := by
  refine ⟨?_, rfl⟩
  have hmerged : deepMerge (spreadToObj .null) (.obj [("x", .num 1)]) = .obj [("x", .num 1)] := by
    show deepMerge (.obj []) (.obj [("x", .num 1)]) = _
    rw [deepMerge, deepMergeFields]
    rw [show deepMergeStep (.obj []) "x" (.num 1) = .obj [("x", .num 1)] from by
      rw [deepMergeStep]
      simp [truthy, typeofIsObject, jsSetProp, setF]]
    rw [deepMergeFields]
  rw [HtmlJs.proxySet]
  rw [show proxyGet [] "h" = .val .null from rfl]
  simp only [hmerged]
  simp only [show setF "h" (JSValue.obj [("x", JSValue.num 1)]) [] =
    [("h", JSValue.obj [("x", JSValue.num 1)])] from rfl]
  simp only [show alookup "h" [("h", [(⟨0, .bfn ⟨"h", .path []⟩, "child"⟩ : Binding)])] =
    some [(⟨0, .bfn ⟨"h", .path []⟩, "child"⟩ : Binding)] from rfl]
  rw [HtmlJs.emitLoop, HtmlJs.emitBinding]
  dsimp only
  rw [show proxyGet [("h", .obj [("x", .num 1)])] "h" = .val (.obj [("x", .num 1)]) from rfl]
  dsimp only
  rw [show evalEvaluator ⟨"h", .path []⟩ (.obj [("x", .num 1)]) = .obj [("x", .num 1)] from rfl]
  rw [HtmlJs.setElementAttribute]
  rw [show proxyGet [("h", .obj [("x", .num 1)])] (listenerKey (some "h")) =
    .val (.obj [("x", .num 1)]) from rfl]
  dsimp only
  simp [HtmlJs.childrenSeq, HtmlJs.renderChildrenLoop, HtmlJs.render, HtmlJs.attrLoop,
    HtmlJs.setElementAttribute, domElemChildCount, domChildNodes, domFind, nlookup, isElemNode,
    isNullV, isNum0, jsKeys, jsEnumPairs, propOr, getProp, lookupF, truthy, isStringifiedFunction,
    listenerKey, proxyGet, walkKeys, splitDots, strMk_data, domCreateElem, domCreateText,
    domSetAttr, domUpdate, aerase, aset, jsToString, getNamespace, HtmlJs.emitLoop]

/-- Binding properties whose application is a plain single-target update
(no child re-rendering): everything except the children/child and
prepend/append families. -/
def simpleProp (p : String) : Bool :=
  !(p == "children" || p == "child" || p == "prepend" || p == "append")

/-- The evaluator carried by a binding entry (client entries always carry
a live function; the serialized form defaults are never used under the
hypotheses of the theorems below). -/
def bfunEval : BFunc → Evaluator
  | .bfn ev => ev
  | .bsrc s => (parseEvaluatorSource s).getD ⟨"data", .lit .pnull⟩

/-- The document update performed when a simple-property binding value is
re-applied: plain attributes are removed and re-set, style is recomputed,
innerHTML replaced, textContent replaced by one fresh text node, and the
reserved no-op keys (tagName, if) change nothing. -/
def applySimpleProp (d : Dom) (el : Nat) (p : String) (value : JSValue) : Dom :=
  if !(p == "children" || p == "prepend" || p == "append" || p == "child" || p == "tagName" ||
      p == "textContent" || p == "innerHTML" || p == "if" || p == "style") then
    domSetAttr d el p value
  else if p = "style" then
    domUpdate d el (fun e => { e with attrs := aset "style" (styleString value) e.attrs })
  else if p = "innerHTML" then domInnerHTML d el value
  else if p = "textContent" then domTextContent d el value
  else d

theorem setEA_simple (fuel : Nat) (dataT : List (String × JSValue)) (el : Nat) (p : String)
    (value : JSValue) (lid : Option String) (depth : JSValue) (st : RSt) (L : JSValue)
    (hget : proxyGet dataT (listenerKey lid) = .val L)
    (hsp : simpleProp p = true) :
    HtmlJs.setElementAttribute fuel dataT el p value lid depth st =
      .ok ((), ⟨st.bindings, applySimpleProp st.dom el p value⟩) := by
  have hn1 : ¬(p = "children") := by intro hh; subst hh; simp [simpleProp] at hsp
  have hn2 : ¬(p = "child") := by intro hh; subst hh; simp [simpleProp] at hsp
  have hn3 : ¬(p = "prepend") := by intro hh; subst hh; simp [simpleProp] at hsp
  have hn4 : ¬(p = "append") := by intro hh; subst hh; simp [simpleProp] at hsp
  rw [HtmlJs.setElementAttribute, hget]
  dsimp only
  by_cases h1 : p = "style"
  · subst h1
    rw [if_neg (by decide), if_pos rfl]
    rw [show applySimpleProp st.dom el "style" value =
      domUpdate st.dom el (fun e => { e with attrs := aset "style" (styleString value) e.attrs })
      from by rw [applySimpleProp]; simp]
  · by_cases h2 : p = "innerHTML"
    · subst h2
      rw [if_neg (by decide), if_neg (by decide), if_pos rfl]
      rw [show applySimpleProp st.dom el "innerHTML" value = domInnerHTML st.dom el value
        from by rw [applySimpleProp]; simp]
    · by_cases h3 : p = "textContent"
      · subst h3
        rw [if_neg (by decide), if_neg (by decide), if_neg (by decide), if_neg (by decide),
          if_neg (by decide), if_pos rfl]
        rw [show applySimpleProp st.dom el "textContent" value = domTextContent st.dom el value
          from by rw [applySimpleProp]; simp]
      · by_cases h4 : p = "tagName"
        · subst h4
          rw [if_neg (by decide), if_neg (by decide), if_neg (by decide), if_neg (by decide),
            if_neg (by decide), if_neg (by decide), if_neg (by decide)]
          rw [show applySimpleProp st.dom el "tagName" value = st.dom
            from by rw [applySimpleProp]; simp]
        · by_cases h5 : p = "if"
          · subst h5
            rw [if_neg (by decide), if_neg (by decide), if_neg (by decide), if_neg (by decide),
              if_neg (by decide), if_neg (by decide), if_neg (by decide)]
            rw [show applySimpleProp st.dom el "if" value = st.dom
              from by rw [applySimpleProp]; simp]
          · have hcond : (p != "children" && p != "prepend" && p != "append" && p != "child" &&
                p != "tagName" && p != "textContent" && p != "innerHTML" && p != "if" &&
                p != "style") = true := by
              simp only [Bool.and_eq_true, bne_iff_ne, ne_eq]
              exact ⟨⟨⟨⟨⟨⟨⟨⟨hn1, hn3⟩, hn4⟩, hn2⟩, h4⟩, h3⟩, h2⟩, h5⟩, h1⟩
            rw [if_pos hcond]
            rw [show applySimpleProp st.dom el p value = domSetAttr st.dom el p value from by
              rw [applySimpleProp]
              rw [if_pos]
              simp only [Bool.not_eq_true', Bool.or_eq_false_iff, beq_eq_false_iff_ne, ne_eq]
              exact ⟨⟨⟨⟨⟨⟨⟨⟨hn1, hn3⟩, hn4⟩, hn2⟩, h4⟩, h3⟩, h2⟩, h5⟩, h1⟩]

theorem emitBinding_simple (fuel : Nat) (dataT : List (String × JSValue)) (h : String)
    (b : Binding) (st : RSt) (M : JSValue) (ev : Evaluator)
    (hfn : b.func = .bfn ev)
    (hsp : simpleProp b.property = true)
    (hget : proxyGet dataT h = .val M) :
    HtmlJs.emitBinding fuel dataT h b st =
      .ok ((), ⟨st.bindings, applySimpleProp st.dom b.element b.property (evalEvaluator ev M)⟩) := by
  rw [HtmlJs.emitBinding, hfn]
  dsimp only
  rw [hget]
  dsimp only
  exact setEA_simple fuel dataT b.element b.property _ (some h) (.num 0) st M hget hsp

theorem emitLoop_simple (fuel : Nat) (dataT : List (String × JSValue)) (h : String) (M : JSValue)
    (hget : proxyGet dataT h = .val M) :
    ∀ (bs : List Binding) (st : RSt),
      (∀ b ∈ bs, simpleProp b.property = true ∧ ∃ ev, b.func = .bfn ev) →
      HtmlJs.emitLoop fuel dataT h bs st =
        .ok ((), ⟨st.bindings,
          bs.foldl (fun d b => applySimpleProp d b.element b.property
            (evalEvaluator (bfunEval b.func) M)) st.dom⟩)
  | [], st, _ => by
      rw [HtmlJs.emitLoop]
      rfl
  | b :: rest, st, hb => by
      rw [HtmlJs.emitLoop]
      obtain ⟨hsp, ev, hfn⟩ := hb b (by simp)
      rw [emitBinding_simple fuel dataT h b st M ev hfn hsp hget]
      dsimp only
      rw [emitLoop_simple fuel dataT h M hget rest _ (fun b2 hb2 => hb b2 (by simp [hb2]))]
      rw [List.foldl_cons]
      rw [show bfunEval b.func = ev from by rw [hfn]; rfl]

/-- C1 (amended): a store write to a hook whose registered bindings all
target simple properties (not children/child/prepend/append) and carry
live functions performs exactly the re-evaluations of the bindings
registered under the literal key, in registration order, applying each
value recomputed from the freshly merged slice to its target before the
write returns; the store is updated, and the binding registry — including
every binding registered under any other key, in particular dot-delimited
tethers below the hook — is untouched and not re-evaluated. -/
theorem c1_amended (fuel : Nat) (app : AppSt) (h : String) (v : JSValue)
    (hdot : h.data.contains '.' = false)
    (hsimple : ∀ b ∈ (alookup h app.rst.bindings).getD [],
      simpleProp b.property = true ∧ ∃ ev, b.func = .bfn ev) :
    HtmlJs.proxySet fuel app h v =
      .ok (true,
        ⟨setF h (deepMerge (spreadToObj ((lookupF h app.data).getD .null)) v) app.data,
         ⟨app.rst.bindings,
          ((alookup h app.rst.bindings).getD []).foldl
            (fun d b => applySimpleProp d b.element b.property
              (evalEvaluator (bfunEval b.func)
                (deepMerge (spreadToObj ((lookupF h app.data).getD .null)) v)))
            app.rst.dom⟩⟩) := by
  rw [HtmlJs.proxySet, proxyGet_hook app.data h hdot]
  dsimp only
  have hget2 : proxyGet
      (setF h (deepMerge (spreadToObj ((lookupF h app.data).getD .null)) v) app.data) h =
      .val (deepMerge (spreadToObj ((lookupF h app.data).getD .null)) v) := by
    rw [proxyGet_hook _ h hdot, lookupF_setF_self]
    rfl
  cases halk : alookup h app.rst.bindings with
  | none =>
      simp only [halk, Option.getD_none, List.foldl_nil]
  | some bs =>
      rw [halk] at hsimple
      simp only [Option.getD_some] at hsimple
      have hloop := emitLoop_simple fuel _ h _ hget2 bs app.rst hsimple
      simp only [hloop, halk, Option.getD_some]

/-- C1 witness: with bindings registered under both `person` and the
deeper tether `person.name`, a write to `person` applies exactly the
`person` binding. -/
theorem c1_witness :
    "person".data.contains '.' = false ∧
    (∀ b ∈ (alookup "person"
        ([("person", [⟨0, .bfn ⟨"person", .path ["name"]⟩, "textContent"⟩]),
          ("person.name", [⟨1, .bfn ⟨"pn", .path []⟩, "textContent"⟩])] :
          List (String × List Binding))).getD [],
      simpleProp b.property = true ∧ ∃ ev, b.func = .bfn ev) ∧
    HtmlJs.proxySet 1
      ⟨[], ⟨[("person", [⟨0, .bfn ⟨"person", .path ["name"]⟩, "textContent"⟩]),
             ("person.name", [⟨1, .bfn ⟨"pn", .path []⟩, "textContent"⟩])], emptyDom⟩⟩
      "person" (.obj [("name", .str "Jo")]) =
      .ok (true,
        ⟨setF "person" (deepMerge (spreadToObj ((lookupF "person" []).getD .null))
            (.obj [("name", .str "Jo")])) [],
         ⟨[("person", [⟨0, .bfn ⟨"person", .path ["name"]⟩, "textContent"⟩]),
           ("person.name", [⟨1, .bfn ⟨"pn", .path []⟩, "textContent"⟩])],
          ([(⟨0, .bfn ⟨"person", .path ["name"]⟩, "textContent"⟩ : Binding)]).foldl
            (fun d b => applySimpleProp d b.element b.property
              (evalEvaluator (bfunEval b.func)
                (deepMerge (spreadToObj ((lookupF "person" []).getD .null))
                  (.obj [("name", .str "Jo")]))))
            emptyDom⟩⟩) := by
  refine ⟨rfl, ?_, ?_⟩
  · intro b hb
    simp only [alookup, Option.getD_some, List.mem_singleton] at hb
    rw [show b = (⟨0, .bfn ⟨"person", .path ["name"]⟩, "textContent"⟩ : Binding) from by
      simpa using hb]
    exact ⟨rfl, ⟨⟨"person", .path ["name"]⟩, rfl⟩⟩
  · exact c1_amended 1
      ⟨[], ⟨[("person", [⟨0, .bfn ⟨"person", .path ["name"]⟩, "textContent"⟩]),
             ("person.name", [⟨1, .bfn ⟨"pn", .path []⟩, "textContent"⟩])], emptyDom⟩⟩
      "person" (.obj [("name", .str "Jo")]) rfl
      (by
        intro b hb
        simp only [alookup, Option.getD_some, List.mem_singleton] at hb
        rw [show b = (⟨0, .bfn ⟨"person", .path ["name"]⟩, "textContent"⟩ : Binding) from by
          simpa using hb]
        exact ⟨rfl, ⟨⟨"person", .path ["name"]⟩, rfl⟩⟩)

/-- C6 counterexample: clearing the children of element 0 discards the
subtree rooted at its child 1, yet the binding whose target is the
grandchild 2 is still registered afterwards — only bindings targeting
direct children are purged. -/
theorem c6_counterexample :
    (clearChildren 0
      ⟨[("h", [⟨2, .bfn ⟨"h", .path []⟩, "textContent"⟩])],
       ⟨[(0, .elem ⟨"div", "ns", [], [1], none⟩),
         (1, .elem ⟨"div", "ns", [], [2], none⟩),
         (2, .elem ⟨"span", "ns", [], [], none⟩)], 3⟩⟩).bindings =
      [("h", [⟨2, .bfn ⟨"h", .path []⟩, "textContent"⟩])] ∧
    domChildNodes
      ⟨[(0, .elem ⟨"div", "ns", [], [1], none⟩),
        (1, .elem ⟨"div", "ns", [], [2], none⟩),
        (2, .elem ⟨"span", "ns", [], [], none⟩)], 3⟩ 1 = [2] ∧
    domChildNodes (clearChildren 0
      ⟨[("h", [⟨2, .bfn ⟨"h", .path []⟩, "textContent"⟩])],
       ⟨[(0, .elem ⟨"div", "ns", [], [1], none⟩),
         (1, .elem ⟨"div", "ns", [], [2], none⟩),
         (2, .elem ⟨"span", "ns", [], [], none⟩)], 3⟩⟩).dom 0 = [] ∧
    [(⟨2, .bfn ⟨"h", .path []⟩, "textContent"⟩ : Binding)] ≠ [] := by
  refine ⟨rfl, rfl, rfl, by simp⟩

theorem filter_shed (c : Nat) (rest : List Nat) (l : List Binding) :
    (l.filter (fun b => b.element != c)).filter (fun b => !(rest.contains b.element)) =
      l.filter (fun b => !((c :: rest).contains b.element)) := by
  rw [List.filter_filter]
  apply List.filter_congr
  intro b hb
  rw [List.contains_cons]
  cases hbe : b.element == c <;> cases hbr : rest.contains b.element <;> simp [bne, hbe, hbr]

theorem bindings_purge_fold : ∀ (kids : List Nat) (bs : List (String × List Binding)),
    kids.foldl
      (fun bs c => bs.map (fun kv => (kv.1, kv.2.filter (fun b => b.element != c)))) bs =
      bs.map (fun kv => (kv.1, kv.2.filter (fun b => !(kids.contains b.element))))
  | [], bs => by
      simp [List.contains_nil]
  | c :: rest, bs => by
      rw [List.foldl_cons, bindings_purge_fold rest]
      rw [List.map_map]
      apply List.map_congr_left
      intro kv hkv
      simp only [Function.comp]
      rw [filter_shed]

theorem foldl_erase_self : ∀ (l : List Nat), l.Nodup → l.foldl (fun acc c => acc.erase c) l = []
  | [], _ => rfl
  | c :: rest, hn => by
      rw [List.foldl_cons, List.erase_cons_head]
      exact foldl_erase_self rest (List.Nodup.of_cons hn)

theorem nlookup_nodup_mem {α : Type} : ∀ (l : List (Nat × α)),
    (l.map Prod.fst).Nodup → ∀ (k : Nat) (v : α), nlookup k l = some v →
    ∀ p ∈ l, p.1 = k → p.2 = v
  | [], _, k, v, hl, p, hp, _ => by simp at hp
  | (k1, v1) :: rest, hn, k, v, hl, p, hp, hpk => by
      rw [List.map_cons, List.nodup_cons] at hn
      rw [nlookup] at hl
      rcases List.mem_cons.mp hp with hp1 | hp2
      · subst hp1
        have hk1 : k1 = k := hpk
        rw [if_pos hk1] at hl
        exact Option.some.inj hl
      · by_cases hk : k1 = k
        · exfalso
          apply hn.1
          rw [hk, ← hpk]
          exact List.mem_map.mpr ⟨p, hp2, rfl⟩
        · simp only [hk, if_false] at hl
          exact nlookup_nodup_mem rest hn.2 k v hl p hp2 hpk

/-- C6 (amended): clearing an element's children removes exactly the
binding entries whose target is one of the element's direct child nodes;
bindings whose target lies deeper in the discarded subtree are retained in
the registry.  The element's child list is emptied. -/
theorem c6_amended (st : RSt) (el : Nat) (ed : ElemData)
    (hfind : domFind st.dom el = some (.elem ed))
    (hnodes : (st.dom.nodes.map Prod.fst).Nodup)
    (hkids : ed.children.Nodup) :
    clearChildren el st =
      ⟨st.bindings.map
          (fun kv => (kv.1, kv.2.filter (fun b => !(ed.children.contains b.element)))),
        domUpdate st.dom el (fun e => { e with children := ([] : List Nat) })⟩ := by
  have hkids_eq : domChildNodes st.dom el = ed.children := by
    rw [domChildNodes, hfind]
  rw [clearChildren]
  rw [hkids_eq, bindings_purge_fold]
  congr 1
  rw [domUpdate, domUpdate]
  congr 1
  apply List.map_congr_left
  intro p hp
  by_cases hpk : p.1 = el
  · simp only [hpk, if_pos rfl]
    have hpv : p.2 = .elem ed := nlookup_nodup_mem st.dom.nodes hnodes el _ hfind p hp hpk
    rw [hpv]
    dsimp only
    rw [foldl_erase_self ed.children hkids]
  · simp only [hpk, if_false]

/-- C6 witness: clearing a concrete element with one direct child carrying
a binding. -/
theorem c6_witness :
    domFind (⟨[(0, .elem ⟨"div", "ns", [], [1], none⟩),
        (1, .elem ⟨"p", "ns", [], [], none⟩)], 2⟩ : Dom) 0 =
      some (.elem ⟨"div", "ns", [], [1], none⟩) ∧
    clearChildren 0
      ⟨[("h", [⟨1, .bfn ⟨"h", .path []⟩, "textContent"⟩])],
       ⟨[(0, .elem ⟨"div", "ns", [], [1], none⟩),
         (1, .elem ⟨"p", "ns", [], [], none⟩)], 2⟩⟩ =
      ⟨[("h", [⟨1, .bfn ⟨"h", .path []⟩, "textContent"⟩])].map
          (fun kv => (kv.1, kv.2.filter (fun b => !(([1] : List Nat).contains b.element)))),
        domUpdate ⟨[(0, .elem ⟨"div", "ns", [], [1], none⟩),
          (1, .elem ⟨"p", "ns", [], [], none⟩)], 2⟩ 0
          (fun e => { e with children := ([] : List Nat) })⟩ := by
  refine ⟨rfl, ?_⟩
  exact c6_amended
    ⟨[("h", [⟨1, .bfn ⟨"h", .path []⟩, "textContent"⟩])],
     ⟨[(0, .elem ⟨"div", "ns", [], [1], none⟩),
       (1, .elem ⟨"p", "ns", [], [], none⟩)], 2⟩⟩
    0 ⟨"div", "ns", [], [1], none⟩ rfl (by simp) (by simp)

theorem data_append (a b : String) : (a ++ b).data = a.data ++ b.data := rfl

theorem str_ext {a b : String} (h : a.data = b.data) : a = b := by
  cases a
  cases b
  simp only at h
  rw [h]

theorem identCharB_ne {c : Char} (h : identCharB c = true) :
    c ≠ ')' ∧ c ≠ '.' ∧ c ≠ '"' := by
  refine ⟨?_, ?_, ?_⟩ <;> intro hc
  · rw [hc] at h
    exact absurd h (by decide)
  · rw [hc] at h
    exact absurd h (by decide)
  · rw [hc] at h
    exact absurd h (by decide)

theorem validIdentChars_all : ∀ l, validIdentChars l = true → ∀ c ∈ l, identCharB c = true
  | [], h, c, hc => absurd hc (by simp)
  | c0 :: rest, h, c, hc => by
      rw [validIdentChars] at h
      simp only [Bool.and_eq_true] at h
      rcases List.mem_cons.mp hc with h1 | h2
      · subst h1
        have h0 := h.1
        simp only [Bool.or_eq_true] at h0
        simp only [identCharB, Bool.or_eq_true]
        tauto
      · exact List.all_eq_true.mp h.2 c h2

theorem takeWhile_app (p : Char → Bool) : ∀ (l1 : List Char), (∀ c ∈ l1, p c = true) →
    ∀ (x : Char) (l2 : List Char), p x = false → List.takeWhile p (l1 ++ x :: l2) = l1
  | [], _, x, l2, hx => by simp [List.takeWhile, hx]
  | c :: rest, h, x, l2, hx => by
      rw [List.cons_append, List.takeWhile]
      rw [h c (by simp)]
      rw [takeWhile_app p rest (fun c2 hc2 => h c2 (by simp [hc2])) x l2 hx]

theorem dropWhile_app (p : Char → Bool) : ∀ (l1 : List Char), (∀ c ∈ l1, p c = true) →
    ∀ (x : Char) (l2 : List Char), p x = false → List.dropWhile p (l1 ++ x :: l2) = x :: l2
  | [], _, x, l2, hx => by simp [List.dropWhile, hx]
  | c :: rest, h, x, l2, hx => by
      rw [List.cons_append, List.dropWhile]
      rw [h c (by simp)]
      exact dropWhile_app p rest (fun c2 hc2 => h c2 (by simp [hc2])) x l2 hx

theorem not_contains_of_all {l : List Char} {x : Char} (h : ∀ c ∈ l, c ≠ x) :
    l.contains x = false := by
  induction l with
  | nil => rfl
  | cons c rest ih =>
      rw [List.contains_cons]
      rw [ih (fun c2 hc2 => h c2 (by simp [hc2]))]
      have hcx : (x == c) = false := by
        cases hb : x == c
        · rfl
        · rw [beq_iff_eq] at hb
          exact absurd hb.symm (h c (by simp))
      rw [hcx]
      rfl

theorem splitDots_seg : ∀ (seg : List Char), (∀ c ∈ seg, c ≠ '.') →
    ∀ (rest : List Char), splitDots (seg ++ '.' :: rest) = seg :: splitDots rest
  | [], _, rest => by
      rw [List.nil_append, splitDots, if_pos rfl]
  | c :: s, h, rest => by
      rw [List.cons_append, splitDots]
      rw [if_neg (h c (by simp))]
      rw [splitDots_seg s (fun c2 hc2 => h c2 (by simp [hc2])) rest]

theorem splitDots_join : ∀ (ks : List String), ks.all (fun k => validIdentChars k.data) = true →
    ∀ (pd : List Char), (∀ c ∈ pd, identCharB c = true) →
    splitDots (pd ++ (joinKeys ks).data) = pd :: ks.map String.data
  | [], _, pd, hpd => by
      rw [joinKeys]
      show splitDots (pd ++ []) = _
      rw [List.append_nil]
      rw [splitDots_no_dot pd (not_contains_of_all (fun c hc => (identCharB_ne (hpd c hc)).2.1))]
      rfl
  | k :: rest, hall, pd, hpd => by
      rw [List.all_cons, Bool.and_eq_true] at hall
      rw [joinKeys]
      rw [show (("." ++ k ++ joinKeys rest) : String).data =
        '.' :: (k.data ++ (joinKeys rest).data) from by simp [data_append]]
      rw [splitDots_seg pd (fun c hc => (identCharB_ne (hpd c hc)).2.1)]
      rw [splitDots_join rest hall.2 k.data
        (validIdentChars_all k.data hall.1)]
      rfl

/-- A string literal safe to embed in the printed evaluator source: no
quote characters. -/
def strLitOk (s : String) : Bool :=
  s.data.all (fun c => c != '"')

/-- Bodies whose printed source parses back: idents as path keys, safe
string literals. -/
def validBody : EvalBody → Bool
  | .path ks => ks.all (fun k => validIdentChars k.data)
  | .lit (.pstr s) => strLitOk s
  | .lit _ => true

theorem validIdent_parts {s : String} (h : validIdent s = true) :
    validIdentChars s.data = true ∧ s ≠ "true" ∧ s ≠ "false" ∧ s ≠ "null" := by
  rw [validIdent, Bool.and_eq_true] at h
  have h2 := h.2
  simp only [Bool.not_eq_true', Bool.or_eq_false_iff, decide_eq_false_iff_not] at h2
  exact ⟨h.1, h2.1.1, h2.1.2, h2.2⟩

theorem firstIdent_ne_quote {c : Char} (h : (c.isAlpha || c == '_' || c == '$') = true) :
    c ≠ '"' := by
  intro hc
  subst hc
  exact absurd h (by decide)

theorem path_ne_word (param : String) (ks : List String) (w : String)
    (hw : w.data.contains '.' = false) (hne : param ≠ w) :
    param.data ++ (joinKeys ks).data ≠ w.data := by
  cases ks with
  | nil =>
      rw [joinKeys]
      show param.data ++ [] ≠ w.data
      rw [List.append_nil]
      intro h
      exact hne (str_ext h)
  | cons k rest =>
      rw [show ((joinKeys (k :: rest)) : String).data =
        '.' :: (k.data ++ (joinKeys rest).data) from by simp [joinKeys, data_append]]
      intro h
      have hmem : '.' ∈ w.data := by
        rw [← h]
        exact List.mem_append.mpr (Or.inr (by simp))
      have := not_contains_of_all (l := w.data) (x := '.')
      rw [List.contains_eq_any_beq] at hw
      have : ¬('.' ∈ w.data) := by
        intro hm
        have : w.data.any (fun c => '.' == c) = true :=
          List.any_eq_true.mpr ⟨'.', hm, by simp⟩
        rw [this] at hw
        exact Bool.true_eq_false.mp hw
      exact this hmem

theorem parseBody_print (param : String) (b : EvalBody)
    (hp : validIdent param = true) (hb : validBody b = true) :
    parseBody param.data (printBody param b).data = some b := by
  obtain ⟨hpc, hpt, hpf, hpn⟩ := validIdent_parts hp
  cases b with
  | lit p =>
      cases p with
      | pnull => rfl
      | pbool bb => cases bb <;> rfl
      | pstr s =>
          rw [validBody, strLitOk] at hb
          rw [show (printBody param (.lit (.pstr s))).data = '"' :: (s.data ++ ['"']) from by
            simp [printBody, printPrim, data_append]]
          rw [parseBody]
          rw [if_pos (show ('"' :: (s.data ++ ['"'])).head? = some '"' from rfl)]
          dsimp only
          rw [List.tail_cons]
          rw [takeWhile_app _ s.data (List.all_eq_true.mp hb) '"' [] (by decide)]
          rw [List.drop_left]
          rw [if_pos rfl, strMk_data]
  | path ks =>
      rw [validBody] at hb
      rw [show (printBody param (.path ks)).data = param.data ++ (joinKeys ks).data from by
        simp [printBody, data_append]]
      obtain ⟨c0, cs, hc0⟩ : ∃ c0 cs, param.data = c0 :: cs := by
        cases hd : param.data with
        | nil => rw [hd] at hpc; exact absurd hpc (by decide)
        | cons a as => exact ⟨a, as, rfl⟩
      have hfirst : (c0.isAlpha || c0 == '_' || c0 == '$') = true := by
        rw [hc0, validIdentChars, Bool.and_eq_true] at hpc
        exact hpc.1
      rw [parseBody]
      rw [if_neg (by
        rw [hc0]
        simp only [List.cons_append, List.head?, Option.some.injEq]
        exact firstIdent_ne_quote hfirst)]
      rw [if_neg (path_ne_word param ks "true" (by decide) hpt)]
      rw [if_neg (path_ne_word param ks "false" (by decide) hpf)]
      rw [if_neg (path_ne_word param ks "null" (by decide) hpn)]
      rw [splitDots_join ks hb param.data (validIdentChars_all param.data hpc)]
      dsimp only
      rw [if_pos (by
        rw [Bool.and_eq_true]
        constructor
        · simp
        · rw [List.all_eq_true]
          intro x hx
          obtain ⟨k, hk, hkx⟩ := List.mem_map.mp hx
          rw [← hkx]
          exact List.all_eq_true.mp hb k hk)]
      rw [List.map_map]
      rw [show (String.mk ∘ String.data) = id from by funext s; exact strMk_data s]
      rw [List.map_id]

theorem toSource_data (ev : Evaluator) :
    (toSource ev).data =
      '(' :: (ev.param.data ++
        (')' :: ' ' :: '=' :: '>' :: ' ' :: (printBody ev.param ev.body).data)) := by
  simp [toSource, data_append]

theorem parse_toSource (ev : Evaluator)
    (hp : validIdent ev.param = true) (hb : validBody ev.body = true) :
    parseEvaluatorSource (toSource ev) = some ev := by
  have hpc := (validIdent_parts hp).1
  have hident := validIdentChars_all ev.param.data hpc
  have hpchars : ∀ c ∈ ev.param.data, (c != ')') = true := fun c hc => by
    have := (identCharB_ne (hident c hc)).1
    simp [bne, this]
  rw [parseEvaluatorSource, toSource_data]
  simp only [List.head?_cons, List.tail_cons]
  rw [if_pos trivial]
  rw [takeWhile_app _ ev.param.data hpchars ')' _ (by decide)]
  rw [List.drop_left]
  rw [if_pos (show List.take 5
    (')' :: ' ' :: '=' :: '>' :: ' ' :: (printBody ev.param ev.body).data) =
    [')', ' ', '=', '>', ' '] from rfl)]
  rw [show List.drop 5
    (')' :: ' ' :: '=' :: '>' :: ' ' :: (printBody ev.param ev.body).data) =
    (printBody ev.param ev.body).data from rfl]
  rw [if_pos hpc]
  rw [parseBody_print ev.param ev.body hp hb]

theorem isStringified_toSource (ev : Evaluator) (hp : validIdent ev.param = true) :
    isStringifiedFunction (.str (toSource ev)) = true := by
  have hpc := (validIdent_parts hp).1
  have hident := validIdentChars_all ev.param.data hpc
  have hpchars : ∀ c ∈ ev.param.data, (c != ')') = true := fun c hc => by
    have := (identCharB_ne (hident c hc)).1
    simp [bne, this]
  rw [isStringifiedFunction, toSource_data]
  rw [show List.dropWhile jsWSChar
      ('(' :: (ev.param.data ++ (')' :: ' ' :: '=' :: '>' :: ' ' :: (printBody ev.param ev.body).data))) =
      '(' :: (ev.param.data ++ (')' :: ' ' :: '=' :: '>' :: ' ' :: (printBody ev.param ev.body).data))
    from rfl]
  rw [show functionHeadMatch
      ('(' :: (ev.param.data ++ (')' :: ' ' :: '=' :: '>' :: ' ' :: (printBody ev.param ev.body).data))) = false
    from rfl]
  rw [Bool.false_or]
  rw [arrowHeadMatch]
  simp only [List.head?_cons, List.tail_cons]
  rw [if_pos trivial]
  rw [dropWhile_app _ ev.param.data hpchars ')' _ (by decide)]
  simp only [List.head?_cons, List.tail_cons]
  rw [if_pos trivial]
  rfl

/-- C7: an evaluator with a valid identifier parameter and a well-formed
pure body serializes to source text that the recognition pattern accepts,
and reconstructing a function from that text yields a function that
computes the same value as the original on every input. -/
theorem c7_round_trip (ev : Evaluator)
    (hp : validIdent ev.param = true) (hb : validBody ev.body = true) :
    isStringifiedFunction (.str (toSource ev)) = true ∧
    parseEvaluatorSource (toSource ev) = some ev ∧
    (∀ v : JSValue, evalEvaluator ((parseEvaluatorSource (toSource ev)).getD ev) v =
      evalEvaluator ev v) := by
  refine ⟨isStringified_toSource ev hp, parse_toSource ev hp hb, ?_⟩
  intro v
  rw [parse_toSource ev hp hb]
  rfl

/-- C7 witness: the evaluator `(person) => person.name`. -/
theorem c7_witness :
    validIdent "person" = true ∧
    validBody (.path ["name"]) = true ∧
    isStringifiedFunction (.str (toSource ⟨"person", .path ["name"]⟩)) = true ∧
    parseEvaluatorSource (toSource ⟨"person", .path ["name"]⟩) =
      some ⟨"person", .path ["name"]⟩ ∧
    evalEvaluator ((parseEvaluatorSource (toSource ⟨"person", .path ["name"]⟩)).getD
        ⟨"person", .path ["name"]⟩) (.obj [("name", .str "Jo")]) =
      evalEvaluator ⟨"person", .path ["name"]⟩ (.obj [("name", .str "Jo")]) := by
  have h1 : validIdent "person" = true := by decide
  have h2 : validBody (.path ["name"]) = true := by decide
  obtain ⟨ha, hbb, hc⟩ := c7_round_trip ⟨"person", .path ["name"]⟩ h1 h2
  exact ⟨h1, h2, ha, hbb, hc (.obj [("name", .str "Jo")])⟩

/-- C8: the two failure modes of evaluator recovery.  First, the explicit
conversion used on already-serialized descriptor attributes throws
`Invalid stringified function` on any value the recognition pattern
rejects.  Second, within the hydration bootstrap scan a `data-bind-to-`
attribute whose source the Function constructor cannot reconstruct is
simply dropped — the scan of the remaining attributes is unchanged — and
the scan over a sequence of elements factors element by element, so one
malformed element cannot prevent the others from being reconstructed. -/
theorem c8_failure_modes :
    (∀ v : JSValue, isStringifiedFunction v = false →
      parseStringifiedFunction v = .error "Invalid stringified function") ∧
    (∀ (el : Nat) (bnd : List Binding) (pre post : List (String × String))
        (name value : String),
      "data-bind-to-".data.isPrefixOf name.data = true → parseEvaluatorSource value = none →
      (pre ++ (name, value) :: post).foldl (fun b kv => scanAttr el b kv.1 kv.2) bnd =
        (pre ++ post).foldl (fun b kv => scanAttr el b kv.1 kv.2) bnd) ∧
    (∀ (bnds : List (String × List Binding)) (es1 es2 : List ScanElem),
      hydrationScan bnds (es1 ++ es2) = hydrationScan (hydrationScan bnds es1) es2) := by
  refine ⟨?_, ?_, ?_⟩
  · intro v hv
    rw [parseStringifiedFunction.eq_def, if_neg (by simp [hv])]
  · intro el bnd pre post name value hsw hparse
    rw [List.foldl_append, List.foldl_append, List.foldl_cons]
    rw [show scanAttr el (pre.foldl (fun b kv => scanAttr el b kv.1 kv.2) bnd) name value =
      pre.foldl (fun b kv => scanAttr el b kv.1 kv.2) bnd from by
        rw [scanAttr, if_pos hsw]
        dsimp only
        rw [hparse]]
  · intro bnds es1 es2
    rw [hydrationScan, hydrationScan, hydrationScan, List.foldl_append]

/-- C8 witness: a malformed binding attribute between two good ones is
skipped while both good ones are reconstructed. -/
theorem c8_witness :
    isStringifiedFunction (.str "not a function") = false ∧
    parseStringifiedFunction (.str "not a function") =
      .error "Invalid stringified function" ∧
    "data-bind-to-".data.isPrefixOf ("data-bind-to-class").data = true ∧
    parseEvaluatorSource "garbage" = none ∧
    ([(("data-bind-to-id" : String), ("(p) => p.a" : String)),
      ("data-bind-to-class", "garbage"),
      ("data-bind-to-title", "(q) => q.b")]).foldl
        (fun b kv => scanAttr 7 b kv.1 kv.2) [] =
      ([(("data-bind-to-id" : String), ("(p) => p.a" : String)),
        ("data-bind-to-title", "(q) => q.b")]).foldl
        (fun b kv => scanAttr 7 b kv.1 kv.2) [] := by
  refine ⟨rfl, ?_, rfl, rfl, ?_⟩
  · exact c8_failure_modes.1 (.str "not a function") rfl
  · exact c8_failure_modes.2.1 7 []
      [("data-bind-to-id", "(p) => p.a")] [("data-bind-to-title", "(q) => q.b")]
      "data-bind-to-class" "garbage" rfl rfl

theorem lookupF_sizeOf (k : String) : ∀ (l : List (String × JSValue)) (w : JSValue),
    lookupF k l = some w → sizeOf w < sizeOf l
  | [], w, h => by simp [lookupF] at h
  | (k1, v) :: rest, w, h => by
      rw [lookupF] at h
      by_cases hk : k1 = k
      · rw [if_pos hk] at h
        injection h with h2
        subst h2
        simp
        omega
      · rw [if_neg hk] at h
        have := lookupF_sizeOf k rest w h
        simp
        omega

theorem fresh_none {o : Option JSValue} (h : (!o.isSome) = true) : o = none := by
  cases o
  · rfl
  · simp at h

mutual

/-- Recursively array-free plain-JSON values with duplicate-free object
keys: the fragment of the value space on which the claimed merge
description can hold at all (arrays are spread into index-keyed objects
by `deepMerge`, see the C2 counterexample). -/
def goodV : JSValue → Bool
  | .obj fs => goodFields fs
  | .arr _ => false
  | _ => true
termination_by v => (sizeOf v, 0)
decreasing_by all_goals simp_wf <;> omega

/-- Array-freedom and key-uniqueness of an object's field list. -/
def goodFields : List (String × JSValue) → Bool
  | [] => true
  | (k, v) :: rest => !(lookupF k rest).isSome && goodV v && goodFields rest
termination_by l => (sizeOf l, 1)
decreasing_by all_goals simp_wf <;> omega

end

/-- Modelled from the claim: the fields "only in B", appended after A's. -/
def claimOnlyB (a b : List (String × JSValue)) : List (String × JSValue) :=
  b.filter (fun kv => !(lookupF kv.1 a).isSome)

mutual

/-- Modelled from the claim's merge description: keys present in A but
absent from B keep A's value unchanged, keys present in both take B's
value (recursively merged when both values are objects), and keys only
in B are added. -/
def claimMergeV : JSValue → JSValue → JSValue
  | .obj a, .obj b => .obj (claimMergeGo a b ++ claimOnlyB a b)
  | _, b => b
termination_by a b => (sizeOf a + sizeOf b, 0)
decreasing_by all_goals simp_wf <;> omega

/-- The pass over A's fields of the claim-side merge. -/
def claimMergeGo : List (String × JSValue) → List (String × JSValue) → List (String × JSValue)
  | [], _ => []
  | (k, v) :: rest, b => (k, claimAt k v b) :: claimMergeGo rest b
termination_by a b => (sizeOf a + sizeOf b, 1)
decreasing_by all_goals simp_wf <;> omega

/-- The claim-side merged value at one key of A: B's value at that key
merged in if present, A's kept otherwise. -/
def claimAt (k : String) (v : JSValue) : List (String × JSValue) → JSValue
  | [] => v
  | (k2, w) :: brest => if k2 = k then claimMergeV v w else claimAt k v brest
termination_by b => (sizeOf v + sizeOf b, 1)
decreasing_by all_goals simp_wf <;> omega

end

theorem claimAt_none (k : String) (x : JSValue) :
    ∀ b, lookupF k b = none → claimAt k x b = x
  | [], _ => by rw [claimAt]
  | (k2, w) :: brest, h => by
      rw [lookupF] at h
      by_cases hk : k2 = k
      · rw [if_pos hk] at h
        exact Option.noConfusion h
      · rw [if_neg hk] at h
        rw [claimAt, if_neg hk]
        exact claimAt_none k x brest h

theorem claimAt_some (k : String) (x w : JSValue) :
    ∀ b, goodFields b = true → lookupF k b = some w → claimAt k x b = claimMergeV x w
  | [], _, h => by simp [lookupF] at h
  | (k2, w2) :: brest, hg, h => by
      rw [lookupF] at h
      by_cases hk : k2 = k
      · rw [if_pos hk] at h
        injection h with h2
        subst h2
        rw [claimAt, if_pos hk]
      · rw [if_neg hk] at h
        rw [goodFields] at hg
        simp only [Bool.and_eq_true] at hg
        rw [claimAt, if_neg hk]
        exact claimAt_some k x w brest hg.2 h

theorem claimMergeGo_nil : ∀ a, claimMergeGo a [] = a
  | [] => by rw [claimMergeGo]
  | (k, v) :: rest => by
      rw [claimMergeGo, claimAt, claimMergeGo_nil rest]

theorem claimOnlyB_nil_left : ∀ b, claimOnlyB [] b = b
  | [] => rfl
  | (k, v) :: rest => by
      have ih := claimOnlyB_nil_left rest
      rw [claimOnlyB] at ih ⊢
      rw [List.filter_cons, ih]
      rw [if_pos (show (!(lookupF k ([] : List (String × JSValue))).isSome) = true from rfl)]

theorem goodFields_lookup {fs : List (String × JSValue)} {k : String} {w : JSValue}
    (hf : goodFields fs = true) (hl : lookupF k fs = some w) : goodV w = true := by
  induction fs with
  | nil => simp [lookupF] at hl
  | cons p rest ih =>
      obtain ⟨k1, v⟩ := p
      rw [goodFields] at hf
      simp only [Bool.and_eq_true] at hf
      rw [lookupF] at hl
      by_cases hk : k1 = k
      · rw [if_pos hk] at hl
        injection hl with h2
        subst h2
        exact hf.1.2
      · rw [if_neg hk] at hl
        exact ih hf.2 hl

theorem lookupF_filter_none {k : String} (p : String × JSValue → Bool) :
    ∀ l : List (String × JSValue), lookupF k l = none → lookupF k (l.filter p) = none
  | [], _ => rfl
  | (k1, v) :: rest, h => by
      rw [lookupF] at h
      by_cases hk : k1 = k
      · rw [if_pos hk] at h
        exact Option.noConfusion h
      · rw [if_neg hk] at h
        rw [List.filter_cons]
        by_cases hp : p (k1, v) = true
        · rw [if_pos hp, lookupF, if_neg hk]
          exact lookupF_filter_none p rest h
        · rw [if_neg hp]
          exact lookupF_filter_none p rest h

theorem goodFields_filter (p : String × JSValue → Bool) :
    ∀ l, goodFields l = true → goodFields (l.filter p) = true
  | [], _ => by rw [List.filter_nil, goodFields]
  | (k1, v) :: rest, h => by
      rw [goodFields] at h
      simp only [Bool.and_eq_true] at h
      have hnone : lookupF k1 rest = none := fresh_none h.1.1
      by_cases hp : p (k1, v) = true
      · rw [List.filter_cons, if_pos hp, goodFields]
        simp only [Bool.and_eq_true]
        refine ⟨⟨?_, h.1.2⟩, goodFields_filter p rest h.2⟩
        rw [lookupF_filter_none p rest hnone]
        rfl
      · rw [List.filter_cons, if_neg hp]
        exact goodFields_filter p rest h.2

theorem lookupF_append_none (k : String) (ys : List (String × JSValue)) :
    ∀ xs, lookupF k xs = none → lookupF k (xs ++ ys) = lookupF k ys
  | [], _ => rfl
  | (k1, v) :: rest, h => by
      rw [lookupF] at h
      by_cases hk : k1 = k
      · rw [if_pos hk] at h
        exact Option.noConfusion h
      · rw [if_neg hk] at h
        rw [List.cons_append, lookupF, if_neg hk]
        exact lookupF_append_none k ys rest h

theorem lookupF_append_some (k : String) (ys : List (String × JSValue)) (w : JSValue) :
    ∀ xs, lookupF k xs = some w → lookupF k (xs ++ ys) = some w
  | [], h => by simp [lookupF] at h
  | (k1, v) :: rest, h => by
      rw [lookupF] at h
      rw [List.cons_append, lookupF]
      by_cases hk : k1 = k
      · rw [if_pos hk] at h
        rw [if_pos hk]
        exact h
      · rw [if_neg hk] at h
        rw [if_neg hk]
        exact lookupF_append_some k ys w rest h

theorem lookupF_none_mem (k : String) :
    ∀ l : List (String × JSValue), lookupF k l = none → ∀ p ∈ l, p.1 ≠ k
  | [], _, p, hp => absurd hp (by simp)
  | (k1, v1) :: rest, h, p, hp => by
      rw [lookupF] at h
      by_cases hk : k1 = k
      · rw [if_pos hk] at h
        exact Option.noConfusion h
      · rw [if_neg hk] at h
        rcases List.mem_cons.mp hp with h1 | h2
        · subst h1
          exact hk
        · exact lookupF_none_mem k rest h p h2

theorem lookupF_filter_of_false (k : String) (q : String × JSValue → Bool)
    (hq : ∀ v, q (k, v) = false) :
    ∀ l : List (String × JSValue), lookupF k (l.filter q) = none
  | [] => rfl
  | (k2, v2) :: rest => by
      rw [List.filter_cons]
      by_cases hp : q (k2, v2) = true
      · rw [if_pos hp, lookupF]
        by_cases hk : k2 = k
        · subst hk
          rw [hq v2] at hp
          exact Bool.noConfusion hp
        · rw [if_neg hk]
          exact lookupF_filter_of_false k q hq rest
      · rw [if_neg hp]
        exact lookupF_filter_of_false k q hq rest

theorem setF_append_of_none (k : String) (v : JSValue) :
    ∀ l, lookupF k l = none → setF k v l = l ++ [(k, v)]
  | [], _ => rfl
  | (k1, v1) :: rest, h => by
      rw [lookupF] at h
      by_cases hk : k1 = k
      · rw [if_pos hk] at h
        exact Option.noConfusion h
      · rw [if_neg hk] at h
        rw [setF, if_neg hk, setF_append_of_none k v rest h, List.cons_append]

theorem setF_setF (k : String) (x y : JSValue) :
    ∀ l, setF k x (setF k y l) = setF k x l
  | [] => by simp [setF]
  | (k1, v1) :: rest => by
      by_cases hk : k1 = k <;> simp [setF, hk, setF_setF k x y rest]

theorem goodFields_setF (k : String) (m : JSValue) (hm : goodV m = true) :
    ∀ l, goodFields l = true → goodFields (setF k m l) = true
  | [], _ => by simp [setF, goodFields, lookupF, hm]
  | (k1, v1) :: rest, h => by
      rw [goodFields] at h
      simp only [Bool.and_eq_true] at h
      by_cases hk : k1 = k
      · rw [setF, if_pos hk, goodFields]
        simp only [Bool.and_eq_true]
        exact ⟨⟨h.1.1, hm⟩, h.2⟩
      · rw [setF, if_neg hk, goodFields]
        simp only [Bool.and_eq_true]
        refine ⟨⟨?_, h.1.2⟩, goodFields_setF k m hm rest h.2⟩
        rw [lookupF_setF_ne k k1 m hk rest]
        exact h.1.1

theorem lookupF_claimMergeGo_none (k : String) (b : List (String × JSValue)) :
    ∀ a, lookupF k a = none → lookupF k (claimMergeGo a b) = none
  | [], h => by rw [claimMergeGo]; exact h
  | (k1, v) :: rest, h => by
      rw [lookupF] at h
      by_cases hk : k1 = k
      · rw [if_pos hk] at h
        exact Option.noConfusion h
      · rw [if_neg hk] at h
        rw [claimMergeGo, lookupF, if_neg hk]
        exact lookupF_claimMergeGo_none k b rest h

theorem claimMergeGo_keys (b : List (String × JSValue)) :
    ∀ a, (claimMergeGo a b).map Prod.fst = a.map Prod.fst
  | [] => by rw [claimMergeGo]
  | (k1, v) :: rest => by
      rw [claimMergeGo]
      simp only [List.map_cons]
      rw [claimMergeGo_keys b rest]

theorem lookupF_isSome_of_mem_keys (k : String) :
    ∀ l : List (String × JSValue), k ∈ l.map Prod.fst → (lookupF k l).isSome = true
  | [], h => by simp at h
  | (k1, v) :: rest, h => by
      rw [lookupF]
      by_cases hk : k1 = k
      · rw [if_pos hk]
        rfl
      · rw [if_neg hk]
        apply lookupF_isSome_of_mem_keys k rest
        simp only [List.map_cons, List.mem_cons] at h
        rcases h with h | h
        · exact absurd h.symm hk
        · exact h

theorem goodFields_append :
    ∀ xs ys, goodFields xs = true → goodFields ys = true →
      (∀ p ∈ xs, lookupF p.1 ys = none) → goodFields (xs ++ ys) = true
  | [], ys, _, hy, _ => hy
  | (k1, v1) :: rest, ys, hx, hy, hd => by
      rw [goodFields] at hx
      simp only [Bool.and_eq_true] at hx
      rw [List.cons_append, goodFields]
      simp only [Bool.and_eq_true]
      refine ⟨⟨?_, hx.1.2⟩,
        goodFields_append rest ys hx.2 hy (fun p hp => hd p (List.mem_cons_of_mem _ hp))⟩
      rw [lookupF_append_none k1 ys rest (fresh_none hx.1.1),
        hd (k1, v1) (List.mem_cons_self _ _)]
      rfl

theorem good_claimMergeV :
    ∀ n : Nat, ∀ v : JSValue, sizeOf v ≤ n → ∀ w : JSValue,
      goodV w = true → goodV v = true → goodV (claimMergeV w v) = true := by
  intro n
  induction n using Nat.strong_induction_on with
  | _ n IH =>
      intro v hsz w hw hv
      cases w with
      | obj a =>
          cases v with
          | obj b =>
              rw [claimMergeV, goodV]
              rw [goodV] at hw
              rw [goodV] at hv
              have hb_sz : sizeOf b < n := by
                have h1 : sizeOf (JSValue.obj b) ≤ n := hsz
                simp at h1
                omega
              have hgo : ∀ a1, goodFields a1 = true →
                  goodFields (claimMergeGo a1 b) = true := by
                intro a1
                induction a1 with
                | nil => intro _; rw [claimMergeGo, goodFields]
                | cons p rest ih =>
                    intro ha1
                    obtain ⟨k1, v1⟩ := p
                    rw [goodFields] at ha1
                    simp only [Bool.and_eq_true] at ha1
                    rw [claimMergeGo, goodFields]
                    simp only [Bool.and_eq_true]
                    refine ⟨⟨?_, ?_⟩, ih ha1.2⟩
                    · rw [lookupF_claimMergeGo_none k1 b rest (fresh_none ha1.1.1)]
                      rfl
                    · cases hw1 : lookupF k1 b with
                      | none =>
                          rw [claimAt_none k1 v1 b hw1]
                          exact ha1.1.2
                      | some w1 =>
                          rw [claimAt_some k1 v1 w1 b hv hw1]
                          exact IH (sizeOf w1) (lt_trans (lookupF_sizeOf k1 b w1 hw1) hb_sz)
                            w1 le_rfl v1 ha1.1.2 (goodFields_lookup hv hw1)
              apply goodFields_append
              · exact hgo a hw
              · exact goodFields_filter _ b hv
              · intro p hp
                have hmem : p.1 ∈ (claimMergeGo a b).map Prod.fst :=
                  List.mem_map_of_mem Prod.fst hp
                rw [claimMergeGo_keys] at hmem
                have hsome := lookupF_isSome_of_mem_keys p.1 a hmem
                exact lookupF_filter_of_false p.1 _
                  (fun v2 => by dsimp only; rw [hsome]; rfl) b
          | null => simpa [claimMergeV] using hv
          | bool x => simpa [claimMergeV] using hv
          | num x => simpa [claimMergeV] using hv
          | str x => simpa [claimMergeV] using hv
          | arr x => simpa [claimMergeV] using hv
          | func x => simpa [claimMergeV] using hv
      | null => simpa [claimMergeV] using hv
      | bool x => simpa [claimMergeV] using hv
      | num x => simpa [claimMergeV] using hv
      | str x => simpa [claimMergeV] using hv
      | arr x => simpa [claimMergeV] using hv
      | func x => simpa [claimMergeV] using hv

theorem claimMergeGo_drop (k : String) (v : JSValue) (rest : List (String × JSValue)) :
    ∀ a, lookupF k a = none →
      claimMergeGo a ((k, v) :: rest) = claimMergeGo a rest
  | [], _ => by rw [claimMergeGo, claimMergeGo]
  | (k1, v1) :: arest, h => by
      rw [lookupF] at h
      by_cases hk : k1 = k
      · rw [if_pos hk] at h
        exact Option.noConfusion h
      · rw [if_neg hk] at h
        rw [claimMergeGo, claimMergeGo, claimMergeGo_drop k v rest arest h]
        rw [claimAt, if_neg (fun he : k = k1 => hk he.symm)]

theorem claimMergeGo_set_some (k : String) (v : JSValue) (rest : List (String × JSValue))
    (hrest : lookupF k rest = none) :
    ∀ a w, goodFields a = true → lookupF k a = some w →
      claimMergeGo a ((k, v) :: rest) =
        claimMergeGo (setF k (claimMergeV w v) a) rest
  | [], w, _, h => by simp [lookupF] at h
  | (k1, v1) :: arest, w, hg, h => by
      rw [goodFields] at hg
      simp only [Bool.and_eq_true] at hg
      rw [lookupF] at h
      by_cases hk : k1 = k
      · rw [if_pos hk] at h
        injection h with h2
        subst h2
        subst hk
        rw [setF, if_pos rfl]
        rw [claimMergeGo, claimMergeGo]
        rw [claimAt, if_pos rfl]
        rw [claimAt_none k1 (claimMergeV v1 v) rest hrest]
        rw [claimMergeGo_drop k1 v rest arest (fresh_none hg.1.1)]
      · rw [if_neg hk] at h
        rw [setF, if_neg hk]
        rw [claimMergeGo, claimMergeGo]
        rw [claimAt, if_neg (fun he : k = k1 => hk he.symm)]
        rw [claimMergeGo_set_some k v rest hrest arest w hg.2 h]

theorem claimMergeGo_append (b : List (String × JSValue)) :
    ∀ xs ys, claimMergeGo (xs ++ ys) b = claimMergeGo xs b ++ claimMergeGo ys b
  | [], ys => by rw [claimMergeGo, List.nil_append, List.nil_append]
  | (k1, v1) :: rest, ys => by
      rw [List.cons_append, claimMergeGo, claimMergeGo,
        claimMergeGo_append b rest ys, List.cons_append]

theorem claimOnlyB_cons_drop (a : List (String × JSValue)) (k : String) (v : JSValue)
    (rest : List (String × JSValue)) (h : (lookupF k a).isSome = true) :
    claimOnlyB a ((k, v) :: rest) = claimOnlyB a rest := by
  rw [claimOnlyB, claimOnlyB, List.filter_cons, if_neg]
  simp [h]

theorem claimOnlyB_cons_keep (a : List (String × JSValue)) (k : String) (v : JSValue)
    (rest : List (String × JSValue)) (h : lookupF k a = none) :
    claimOnlyB a ((k, v) :: rest) = (k, v) :: claimOnlyB a rest := by
  rw [claimOnlyB, claimOnlyB, List.filter_cons, if_pos]
  rw [h]
  rfl

theorem claimOnlyB_set_some (k : String) (m : JSValue) (rest : List (String × JSValue))
    (a : List (String × JSValue)) (h : (lookupF k a).isSome = true) :
    claimOnlyB (setF k m a) rest = claimOnlyB a rest := by
  rw [claimOnlyB, claimOnlyB]
  apply List.filter_congr
  intro p hp
  obtain ⟨pk, pv⟩ := p
  dsimp only
  by_cases hk : pk = k
  · rw [hk, lookupF_setF_self, h]
    rfl
  · rw [lookupF_setF_ne k pk m hk]

theorem claimOnlyB_append_absent (k : String) (m : JSValue)
    (rest a : List (String × JSValue)) (hrest : lookupF k rest = none) :
    claimOnlyB (a ++ [(k, m)]) rest = claimOnlyB a rest := by
  rw [claimOnlyB, claimOnlyB]
  apply List.filter_congr
  intro p hp
  obtain ⟨pk, pv⟩ := p
  dsimp only
  have hne : pk ≠ k := lookupF_none_mem k rest hrest (pk, pv) hp
  have h1 : lookupF pk [(k, m)] = none := by
    rw [lookupF, if_neg (fun he : k = pk => hne he.symm)]
    rfl
  cases hpa : lookupF pk a with
  | some w => rw [lookupF_append_some pk [(k, m)] w a hpa]
  | none => rw [lookupF_append_none pk [(k, m)] a hpa, h1]

theorem claim_reassoc_some (k : String) (v w : JSValue) (rest a : List (String × JSValue))
    (hrest : lookupF k rest = none) (hga : goodFields a = true)
    (ha : lookupF k a = some w) :
    claimMergeGo a ((k, v) :: rest) ++ claimOnlyB a ((k, v) :: rest) =
      claimMergeGo (setF k (claimMergeV w v) a) rest ++
        claimOnlyB (setF k (claimMergeV w v) a) rest := by
  rw [claimMergeGo_set_some k v rest hrest a w hga ha]
  rw [claimOnlyB_cons_drop a k v rest (by rw [ha]; rfl)]
  rw [claimOnlyB_set_some k (claimMergeV w v) rest a (by rw [ha]; rfl)]

theorem claim_reassoc_none (k : String) (v : JSValue) (rest a : List (String × JSValue))
    (hrest : lookupF k rest = none) (ha : lookupF k a = none) :
    claimMergeGo a ((k, v) :: rest) ++ claimOnlyB a ((k, v) :: rest) =
      claimMergeGo (setF k v a) rest ++ claimOnlyB (setF k v a) rest := by
  rw [setF_append_of_none k v a ha]
  rw [claimMergeGo_drop k v rest a ha]
  rw [claimOnlyB_cons_keep a k v rest ha]
  rw [claimMergeGo_append rest a [(k, v)]]
  rw [show claimMergeGo [(k, v)] rest = [(k, v)] from by
    rw [claimMergeGo, claimMergeGo, claimAt_none k v rest hrest]]
  rw [claimOnlyB_append_absent k v rest a hrest]
  rw [List.append_assoc, List.singleton_append]

theorem deepMergeStep_claim_some (a : List (String × JSValue)) (k : String) (v w : JSValue)
    (hv : goodV v = true) (hgw : goodV w = true)
    (hla : lookupF k a = some w)
    (Hrec : ∀ vfs : List (String × JSValue), v = .obj vfs →
      ∀ a1 : List (String × JSValue), goodFields a1 = true →
        deepMergeFields (.obj a1) vfs = .obj (claimMergeGo a1 vfs ++ claimOnlyB a1 vfs)) :
    deepMergeStep (.obj a) k v = .obj (setF k (claimMergeV w v) a) := by
  have hgp : getProp (.obj a) k = .val w := by
    rw [getProp, hla]
  cases v with
  | obj vfs =>
      have hrec0 : deepMergeFields (.obj []) vfs = .obj vfs := by
        rw [Hrec vfs rfl [] (by rw [goodFields])]
        rw [claimMergeGo, claimOnlyB_nil_left, List.nil_append]
      rw [deepMergeStep,
        if_pos (show (truthy (JSValue.obj vfs) && typeofIsObject (JSValue.obj vfs)) = true from rfl)]
      rw [hgp]
      dsimp only
      cases w with
      | obj wfs =>
          rw [show (truthy (JSValue.obj wfs) && typeofIsObject (JSValue.obj wfs)) = true from rfl]
          rw [if_pos rfl]
          rw [hgp]
          dsimp only
          rw [deepMerge]
          rw [Hrec vfs rfl wfs (by rw [goodV] at hgw; exact hgw)]
          rw [jsSetProp]
          rw [claimMergeV]
      | null =>
          rw [show (truthy JSValue.null && typeofIsObject JSValue.null) = false from rfl]
          rw [if_neg (by decide)]
          rw [jsSetProp]
          rw [show getProp (JSValue.obj (setF k (JSValue.obj []) a)) k = .val (.obj []) from by
            rw [getProp, lookupF_setF_self]]
          dsimp only
          rw [deepMerge, hrec0, jsSetProp, setF_setF]
          simp [claimMergeV]
      | bool x =>
          rw [show (truthy (JSValue.bool x) && typeofIsObject (JSValue.bool x)) = false from by
            simp [truthy, typeofIsObject]]
          rw [if_neg (by decide)]
          rw [jsSetProp]
          rw [show getProp (JSValue.obj (setF k (JSValue.obj []) a)) k = .val (.obj []) from by
            rw [getProp, lookupF_setF_self]]
          dsimp only
          rw [deepMerge, hrec0, jsSetProp, setF_setF]
          simp [claimMergeV]
      | num x =>
          rw [show (truthy (JSValue.num x) && typeofIsObject (JSValue.num x)) = false from by
            simp [truthy, typeofIsObject]]
          rw [if_neg (by decide)]
          rw [jsSetProp]
          rw [show getProp (JSValue.obj (setF k (JSValue.obj []) a)) k = .val (.obj []) from by
            rw [getProp, lookupF_setF_self]]
          dsimp only
          rw [deepMerge, hrec0, jsSetProp, setF_setF]
          simp [claimMergeV]
      | str x =>
          rw [show (truthy (JSValue.str x) && typeofIsObject (JSValue.str x)) = false from by
            simp [truthy, typeofIsObject]]
          rw [if_neg (by decide)]
          rw [jsSetProp]
          rw [show getProp (JSValue.obj (setF k (JSValue.obj []) a)) k = .val (.obj []) from by
            rw [getProp, lookupF_setF_self]]
          dsimp only
          rw [deepMerge, hrec0, jsSetProp, setF_setF]
          simp [claimMergeV]
      | func x =>
          rw [show (truthy (JSValue.func x) && typeofIsObject (JSValue.func x)) = false from by
            simp [truthy, typeofIsObject]]
          rw [if_neg (by decide)]
          rw [jsSetProp]
          rw [show getProp (JSValue.obj (setF k (JSValue.obj []) a)) k = .val (.obj []) from by
            rw [getProp, lookupF_setF_self]]
          dsimp only
          rw [deepMerge, hrec0, jsSetProp, setF_setF]
          simp [claimMergeV]
      | arr x =>
          rw [goodV] at hgw
          exact Bool.noConfusion hgw
  | null =>
      rw [deepMergeStep, if_neg (by decide), jsSetProp]
      simp [claimMergeV]
  | bool b =>
      rw [deepMergeStep, if_neg (by simp [truthy, typeofIsObject]), jsSetProp]
      simp [claimMergeV]
  | num n =>
      rw [deepMergeStep, if_neg (by simp [truthy, typeofIsObject]), jsSetProp]
      simp [claimMergeV]
  | str s =>
      rw [deepMergeStep, if_neg (by simp [truthy, typeofIsObject]), jsSetProp]
      simp [claimMergeV]
  | func f =>
      rw [deepMergeStep, if_neg (by simp [truthy, typeofIsObject]), jsSetProp]
      simp [claimMergeV]
  | arr x =>
      rw [goodV] at hv
      exact Bool.noConfusion hv

theorem deepMergeStep_claim_none (a : List (String × JSValue)) (k : String) (v : JSValue)
    (hv : goodV v = true) (hla : lookupF k a = none)
    (Hrec : ∀ vfs : List (String × JSValue), v = .obj vfs →
      ∀ a1 : List (String × JSValue), goodFields a1 = true →
        deepMergeFields (.obj a1) vfs = .obj (claimMergeGo a1 vfs ++ claimOnlyB a1 vfs)) :
    deepMergeStep (.obj a) k v = .obj (setF k v a) := by
  have hgp : getProp (.obj a) k = .undef := by
    rw [getProp, hla]
  cases v with
  | obj vfs =>
      have hrec0 : deepMergeFields (.obj []) vfs = .obj vfs := by
        rw [Hrec vfs rfl [] (by rw [goodFields])]
        rw [claimMergeGo, claimOnlyB_nil_left, List.nil_append]
      rw [deepMergeStep,
        if_pos (show (truthy (JSValue.obj vfs) && typeofIsObject (JSValue.obj vfs)) = true from rfl)]
      rw [hgp]
      dsimp only
      rw [if_neg (by decide)]
      rw [jsSetProp]
      rw [show getProp (JSValue.obj (setF k (JSValue.obj []) a)) k = .val (.obj []) from by
        rw [getProp, lookupF_setF_self]]
      dsimp only
      rw [deepMerge, hrec0, jsSetProp, setF_setF]
  | null => rw [deepMergeStep, if_neg (by decide), jsSetProp]
  | bool b => rw [deepMergeStep, if_neg (by simp [truthy, typeofIsObject]), jsSetProp]
  | num n => rw [deepMergeStep, if_neg (by simp [truthy, typeofIsObject]), jsSetProp]
  | str s => rw [deepMergeStep, if_neg (by simp [truthy, typeofIsObject]), jsSetProp]
  | func f => rw [deepMergeStep, if_neg (by simp [truthy, typeofIsObject]), jsSetProp]
  | arr x =>
      rw [goodV] at hv
      exact Bool.noConfusion hv

theorem deepMerge_claim :
    ∀ n : Nat, ∀ b : List (String × JSValue), sizeOf b ≤ n →
      ∀ a : List (String × JSValue), goodFields a = true → goodFields b = true →
      deepMergeFields (.obj a) b = .obj (claimMergeGo a b ++ claimOnlyB a b) := by
  intro n
  induction n using Nat.strong_induction_on with
  | _ n IH =>
      intro b hsz a hga hgb
      match b with
      | [] =>
          rw [deepMergeFields, claimMergeGo_nil a,
            show claimOnlyB a ([] : List (String × JSValue)) = [] from rfl,
            List.append_nil]
      | (k, v) :: rest =>
          rw [goodFields] at hgb
          simp only [Bool.and_eq_true] at hgb
          obtain ⟨⟨hfresh0, hv⟩, hgrest⟩ := hgb
          have hfresh : lookupF k rest = none := fresh_none hfresh0
          have hszrest : sizeOf rest < n := by
            have h1 : sizeOf ((k, v) :: rest) ≤ n := hsz
            simp at h1
            omega
          have Hrec : ∀ vfs, v = .obj vfs → ∀ a1, goodFields a1 = true →
              deepMergeFields (.obj a1) vfs =
                .obj (claimMergeGo a1 vfs ++ claimOnlyB a1 vfs) := by
            intro vfs he a1 ha1
            have hgv : goodFields vfs = true := by
              rw [he, goodV] at hv
              exact hv
            have hszv : sizeOf vfs < n := by
              subst he
              have h1 : sizeOf ((k, JSValue.obj vfs) :: rest) ≤ n := hsz
              simp at h1
              omega
            exact IH (sizeOf vfs) hszv vfs le_rfl a1 ha1 hgv
          rw [deepMergeFields]
          cases hla : lookupF k a with
          | some w =>
              have hgw : goodV w = true := goodFields_lookup hga hla
              rw [deepMergeStep_claim_some a k v w hv hgw hla Hrec]
              have hgm : goodV (claimMergeV w v) = true :=
                good_claimMergeV (sizeOf v) v le_rfl w hgw hv
              rw [IH (sizeOf rest) hszrest rest le_rfl (setF k (claimMergeV w v) a)
                (goodFields_setF k (claimMergeV w v) hgm a hga) hgrest]
              rw [claim_reassoc_some k v w rest a hfresh hga hla]
          | none =>
              rw [deepMergeStep_claim_none a k v hv hla Hrec]
              rw [IH (sizeOf rest) hszrest rest le_rfl (setF k v a)
                (goodFields_setF k v hv a hga) hgrest]
              rw [claim_reassoc_none k v rest a hfresh hla]

/-- C2 counterexample: writing `{k: [1]}` then `{}` under hook `h` on an
empty store does not leave the slice equal to the claim's recursive merge
of the two partials.  The claim says a key present in A and absent from B
keeps A's value unchanged, so the slice should be `{k: [1]}`; but
`deepMerge` spreads the array into an index-keyed plain object, storing
`{k: {0: 1}}`. -/
theorem c2_counterexample :
    HtmlJs.proxySet 1 ⟨[], ⟨[], emptyDom⟩⟩ "h" (.obj [("k", .arr [.num 1])]) =
      .ok (true, ⟨[("h", .obj [("k", .obj [("0", .num 1)])])], ⟨[], emptyDom⟩⟩) ∧
    HtmlJs.proxySet 1 ⟨[("h", .obj [("k", .obj [("0", .num 1)])])], ⟨[], emptyDom⟩⟩
        "h" (.obj []) =
      .ok (true, ⟨[("h", .obj [("k", .obj [("0", .num 1)])])], ⟨[], emptyDom⟩⟩) ∧
    claimMergeV (.obj [("k", .arr [.num 1])]) (.obj []) = .obj [("k", .arr [.num 1])] ∧
    proxyGet [("h", .obj [("k", .obj [("0", .num 1)])])] "h" =
      .val (.obj [("k", .obj [("0", .num 1)])]) ∧
    JSValue.obj [("k", .obj [("0", .num 1)])] ≠ JSValue.obj [("k", .arr [.num 1])] := by
  have hm1 : deepMerge (spreadToObj .null) (.obj [("k", .arr [.num 1])]) =
      .obj [("k", .obj [("0", .num 1)])] := by
    show deepMerge (.obj []) (.obj [("k", .arr [.num 1])]) = _
    simp [deepMerge, deepMergeFields, deepMergeStep, deepMergeElems, getProp, jsSetProp,
      setF, lookupF, truthy, typeofIsObject, show toString (0 : Nat) = "0" from rfl]
  have hm2 : deepMerge (spreadToObj (.obj [("k", .obj [("0", .num 1)])])) (.obj []) =
      .obj [("k", .obj [("0", .num 1)])] := by
    show deepMerge (.obj [("k", .obj [("0", .num 1)])]) (.obj []) = _
    simp [deepMerge, deepMergeFields]
  refine ⟨?_, ?_, ?_, rfl, by simp⟩
  · rw [HtmlJs.proxySet, show proxyGet [] "h" = .val .null from rfl]
    simp only [Option.getD_none, hm1]
    rfl
  · rw [HtmlJs.proxySet,
      show proxyGet [("h", .obj [("k", .obj [("0", .num 1)])])] "h" =
        .val (.obj [("k", .obj [("0", .num 1)])]) from rfl]
    simp only [hm2]
    rfl
  · simp [claimMergeV, claimMergeGo, claimAt, claimOnlyB, lookupF]

/-- C2 (amended): on a fresh dot-free hook with no registered bindings,
writing object A then object B stores exactly the claim's recursive merge
of A and B — keys of A absent from B keep A's value, keys in both take
B's value (recursively merged when both are objects), keys only in B are
appended — provided A and B are recursively array-free objects with
duplicate-free keys; a subsequent read returns that merge.  (With array
values the stored slice differs from the claimed merge: see the C2
counterexample.) -/
theorem c2_amended (fuel : Nat) (app : AppSt) (h : String)
    (A B : List (String × JSValue))
    (hdot : h.data.contains '.' = false)
    (hb : (alookup h app.rst.bindings).getD [] = [])
    (hfresh : lookupF h app.data = none)
    (hA : goodFields A = true) (hB : goodFields B = true) :
    HtmlJs.proxySet fuel app h (.obj A) =
      .ok (true, ⟨setF h (.obj A) app.data, app.rst⟩) ∧
    HtmlJs.proxySet fuel ⟨setF h (.obj A) app.data, app.rst⟩ h (.obj B) =
      .ok (true, ⟨setF h (claimMergeV (.obj A) (.obj B)) app.data, app.rst⟩) ∧
    proxyGet (setF h (claimMergeV (.obj A) (.obj B)) app.data) h =
      .val (claimMergeV (.obj A) (.obj B)) := by
  have hMA : deepMerge (spreadToObj ((lookupF h app.data).getD .null)) (.obj A) = .obj A := by
    rw [hfresh]
    show deepMerge (.obj []) (.obj A) = _
    rw [deepMerge]
    rw [deepMerge_claim (sizeOf A) A le_rfl [] (by rw [goodFields]) hA]
    rw [claimMergeGo, claimOnlyB_nil_left, List.nil_append]
  have hMB : deepMerge
      (spreadToObj ((lookupF h (setF h (.obj A) app.data)).getD .null)) (.obj B) =
      claimMergeV (.obj A) (.obj B) := by
    rw [lookupF_setF_self]
    show deepMerge (.obj A) (.obj B) = _
    rw [deepMerge]
    rw [deepMerge_claim (sizeOf B) B le_rfl A hA hB]
    rw [claimMergeV]
  refine ⟨?_, ?_, ?_⟩
  · rw [HtmlJs.proxySet, proxyGet_hook app.data h hdot]
    dsimp only
    rw [hMA]
    cases halk : alookup h app.rst.bindings with
    | none => simp
    | some bs =>
        rw [halk] at hb
        simp only [Option.getD_some] at hb
        subst hb
        simp [HtmlJs.emitLoop]
  · rw [HtmlJs.proxySet, proxyGet_hook _ h hdot]
    dsimp only
    rw [hMB]
    rw [setF_setF]
    cases halk : alookup h app.rst.bindings with
    | none => simp
    | some bs =>
        rw [halk] at hb
        simp only [Option.getD_some] at hb
        subst hb
        simp [HtmlJs.emitLoop]
  · rw [proxyGet_hook _ h hdot, lookupF_setF_self]
    rfl

/-- C2 witness: the spec's own scenario — `write("user", {name: "Ann"})`
then `write("user", {age: 30})` on a fresh store reads back
`{name: "Ann", age: 30}`. -/
theorem c2_witness :
    goodFields [("name", JSValue.str "Ann")] = true ∧
    goodFields [("age", JSValue.num 30)] = true ∧
    claimMergeV (.obj [("name", .str "Ann")]) (.obj [("age", .num 30)]) =
      .obj [("name", .str "Ann"), ("age", .num 30)] ∧
    (HtmlJs.proxySet 1 ⟨[], ⟨[], emptyDom⟩⟩ "user" (.obj [("name", .str "Ann")]) =
      .ok (true, ⟨setF "user" (.obj [("name", .str "Ann")]) [], ⟨[], emptyDom⟩⟩) ∧
    HtmlJs.proxySet 1 ⟨setF "user" (.obj [("name", .str "Ann")]) [], ⟨[], emptyDom⟩⟩
        "user" (.obj [("age", .num 30)]) =
      .ok (true, ⟨setF "user"
        (claimMergeV (.obj [("name", .str "Ann")]) (.obj [("age", .num 30)])) [],
        ⟨[], emptyDom⟩⟩) ∧
    proxyGet (setF "user"
        (claimMergeV (.obj [("name", .str "Ann")]) (.obj [("age", .num 30)])) []) "user" =
      .val (claimMergeV (.obj [("name", .str "Ann")]) (.obj [("age", .num 30)]))) := by
  refine ⟨?_, ?_, ?_, ?_⟩
  · simp [goodFields, goodV, lookupF]
  · simp [goodFields, goodV, lookupF]
  · simp [claimMergeV, claimMergeGo, claimAt, claimOnlyB, lookupF]
  · exact c2_amended 1 ⟨[], ⟨[], emptyDom⟩⟩ "user"
      [("name", JSValue.str "Ann")] [("age", JSValue.num 30)]
      rfl rfl rfl (by simp [goodFields, goodV, lookupF]) (by simp [goodFields, goodV, lookupF])

theorem digitChar_isDigit (m : Nat) (h : m < 10) : (Nat.digitChar m).isDigit = true := by
  interval_cases m <;> decide

theorem toDigitsCore_digits : ∀ (f n : Nat) (l : List Char),
    (∀ c ∈ l, c.isDigit = true) →
    ∀ c ∈ Nat.toDigitsCore 10 f n l, c.isDigit = true := by
  intro f
  induction f with
  | zero =>
      intro n l hl c hc
      rw [Nat.toDigitsCore] at hc
      exact hl c hc
  | succ f ih =>
      intro n l hl c hc
      rw [Nat.toDigitsCore] at hc
      by_cases h0 : n / 10 = 0
      · rw [if_pos h0] at hc
        rcases List.mem_cons.mp hc with h1 | h2
        · subst h1
          exact digitChar_isDigit (n % 10) (Nat.mod_lt n (by decide))
        · exact hl c h2
      · rw [if_neg h0] at hc
        refine ih (n / 10) (Nat.digitChar (n % 10) :: l) ?_ c hc
        intro c2 hc2
        rcases List.mem_cons.mp hc2 with h1 | h2
        · subst h1
          exact digitChar_isDigit (n % 10) (Nat.mod_lt n (by decide))
        · exact hl c2 h2

theorem natToString_digits (i : Nat) : ∀ c ∈ (toString i).data, c.isDigit = true := by
  intro c hc
  have h2 : (toString i).data = Nat.toDigitsCore 10 (i + 1) i [] := rfl
  rw [h2] at hc
  exact toDigitsCore_digits (i + 1) i [] (by intro c2 hc2; simp at hc2) c hc

theorem natToString_ne_if (i : Nat) : ("if" == toString i) = false := by
  cases hbe : ("if" == toString i) with
  | false => rfl
  | true =>
      have heq : "if" = toString i := eq_of_beq hbe
      have hd := natToString_digits i
      rw [← heq] at hd
      have h1 := hd 'i' (by decide)
      exact absurd h1 (by decide)

theorem indexedChars_no_if : ∀ (cs : List Char) (i : Nat),
    (((indexedChars i cs).map Prod.fst).contains "if") = false
  | [], _ => rfl
  | c :: rest, i => by
      rw [indexedChars, List.map_cons, List.contains_cons]
      rw [natToString_ne_if i, Bool.false_or]
      exact indexedChars_no_if rest (i + 1)

theorem strKeys_no_if (s : String) : ((jsKeys (.str s)).contains "if") = false :=
  indexedChars_no_if s.data 0

theorem lookupF_none_contains (k : String) : ∀ fs : List (String × JSValue),
    lookupF k fs = none → ((fs.map Prod.fst).contains k) = false
  | [], _ => rfl
  | (k1, v) :: rest, h => by
      rw [lookupF] at h
      by_cases hk : k1 = k
      · rw [if_pos hk] at h
        exact Option.noConfusion h
      · rw [if_neg hk] at h
        rw [List.map_cons, List.contains_cons, lookupF_none_contains k rest h, Bool.or_false]
        cases hbe : (k == k1) with
        | false => rfl
        | true => exact absurd (eq_of_beq hbe).symm hk

theorem simpleKey_eq (key : String) :
    (key != "children" && key != "prepend" && key != "append" && key != "child" &&
      key != "tagName" && key != "textContent" && key != "innerHTML" && key != "if" &&
      key != "style") =
    !(["children", "prepend", "append", "child", "tagName", "textContent", "innerHTML",
        "if", "style"].contains key) := by
  simp only [List.contains_cons, List.contains_nil, Bool.or_false, Bool.not_or, bne]
  simp only [Bool.and_assoc]

/-- Whether a value is a live function. -/
def isFuncV : JSValue → Bool
  | .func _ => true
  | _ => false

/-- The `if` field of a template is either absent, the literal false, or
truthy: the spot where the monolithic variant (which prunes on every
falsy value) and the refactored variant (which prunes only on strict
false) agree. -/
def ifOK (fs : List (String × JSValue)) : Bool :=
  match lookupF "if" fs with
  | none => true
  | some (.bool false) => true
  | some v => truthy v

/-- The `tagName` field is absent or a nonempty string: the spot where
the two variants compute the same tag. -/
def tagOK (fs : List (String × JSValue)) : Bool :=
  match lookupF "tagName" fs with
  | none => true
  | some (.str s) => s != ""
  | some _ => false

mutual

/-- The template fragment on which the two render variants agree (the C10
counterexample exhibits the gap outside it): null, nonempty strings, and
objects whose `if`, `tagName` and children-family fields avoid the
divergent spots of the two variants. -/
def goodT : JSValue → Bool
  | .null => true
  | .str s => s != ""
  | .obj fs => ifOK fs && tagOK fs && goodTFields fs
  | _ => false
termination_by t => (sizeOf t, 0)
decreasing_by all_goals simp_wf <;> omega

/-- Per-field admissibility of an object template's fields. -/
def goodTFields : List (String × JSValue) → Bool
  | [] => true
  | (k, v) :: rest => fieldOK k v && goodTFields rest
termination_by l => (sizeOf l, 3)
decreasing_by all_goals simp_wf <;> omega

/-- Conditions on a single field: `children` carries null or an array of
agreeing templates, `child` null or an agreeing template, `prepend` and
`append` carry non-objects, and none of these four carries a function or
a stringified function (whose evaluation result would reach the divergent
application paths); all other keys are unrestricted. -/
def fieldOK (k : String) (v : JSValue) : Bool :=
  if k = "children" then childrenValOK v
  else if k = "child" then isNullV v || (goodT v && !isStringifiedFunction v)
  else if k = "prepend" || k = "append" then
    !typeofIsObject v && !isStringifiedFunction v && !isFuncV v
  else true
termination_by (sizeOf v, 2)
decreasing_by all_goals simp_wf <;> omega

/-- The admissible shapes of a `children` value: null or an array of
agreeing templates. -/
def childrenValOK : JSValue → Bool
  | .null => true
  | .arr xs => goodTList xs
  | _ => false
termination_by v => (sizeOf v, 1)
decreasing_by all_goals simp_wf <;> omega

/-- Pointwise agreement fragment for a children array. -/
def goodTList : List JSValue → Bool
  | [] => true
  | x :: rest => goodT x && goodTList rest
termination_by l => (sizeOf l, 0)
decreasing_by all_goals simp_wf <;> omega

end

/-- Store states under which the children application path of the
monolithic variant does not hit its truthy-callback ReferenceError: the
slice read for an absent listenerId (the literal key the undefined
listenerId coerces to) is falsy. -/
def nullHookFalsy (dataT : List (String × JSValue)) : Prop :=
  ∀ v, proxyGet dataT (listenerKey none) = .val v → truthy v = false

theorem c10_loop (n : Nat) (dataT : List (String × JSValue))
    (Hrender : ∀ t cbH cbP dH dP st, goodT t = true → truthy cbH = false →
      truthy cbP = false → isNum0 dH = false →
      HtmlJs.render n dataT t cbH dH st = Part1.render n dataT t cbP dP st) :
    ∀ (xs : List JSValue) (el : Nat) (listener dP : JSValue) (st : RSt),
      goodTList xs = true → truthy listener = false →
      HtmlJs.renderChildrenLoop n dataT el xs listener st =
        Part1.childLoop n dataT el xs dP st
  | [], el, listener, dP, st, _, _ => by
      rw [HtmlJs.renderChildrenLoop, Part1.childLoop]
  | x :: rest, el, listener, dP, st, hg, hl => by
      rw [goodTList] at hg
      simp only [Bool.and_eq_true] at hg
      rw [HtmlJs.renderChildrenLoop, Part1.childLoop]
      rw [Hrender x listener .null .null (jsAdd1 dP) st hg.1 hl rfl rfl]
      cases hr : Part1.render n dataT x .null (jsAdd1 dP) st with
      | error e => rfl
      | ok p =>
          obtain ⟨res, st1⟩ := p
          dsimp only
          exact c10_loop n dataT Hrender rest el listener dP _ hg.2 hl

theorem c10_setEA (n : Nat) (dataT : List (String × JSValue))
    (hnull : nullHookFalsy dataT)
    (Hrender : ∀ t cbH cbP dH dP st, goodT t = true → truthy cbH = false →
      truthy cbP = false → isNum0 dH = false →
      HtmlJs.render n dataT t cbH dH st = Part1.render n dataT t cbP dP st)
    (el : Nat) (key : String) (value : JSValue) (lid : Option String)
    (dH dP : JSValue) (st : RSt)
    (hkv : fieldOK key value = true)
    (hlidn : (key = "children" ∨ key = "child") → lid = none) :
    HtmlJs.setElementAttribute n dataT el key value lid dH st =
      Part1.setElementAttribute n dataT el key value lid dP st := by
  rw [HtmlJs.setElementAttribute, Part1.setElementAttribute]
  cases hpg : proxyGet dataT (listenerKey lid) with
  | thrown => rfl
  | val listener =>
      dsimp only
      rw [simpleKey_eq key]
      cases hc : (["children", "prepend", "append", "child", "tagName", "textContent",
          "innerHTML", "if", "style"].contains key) with
      | false =>
          rw [if_pos (show (!false) = true from rfl), if_pos (show (!false) = true from rfl),
            Part1.setAttribute]
      | true =>
          rw [if_neg (show ¬((!true) = true) from by decide),
            if_neg (show ¬((!true) = true) from by decide)]
          by_cases h1 : key = "style"
          · rw [if_pos h1, if_pos h1, Part1.setStyle]
          rw [if_neg h1, if_neg h1]
          by_cases h2 : key = "innerHTML"
          · rw [if_pos h2, if_pos h2, Part1.setInnerHTML]
          rw [if_neg h2, if_neg h2]
          by_cases h3 : key = "prepend"
          · subst h3
            rw [fieldOK, if_neg (show ¬("prepend" = "children") from by decide),
              if_neg (show ¬("prepend" = "child") from by decide),
              if_pos (show (decide ("prepend" = "prepend") || decide ("prepend" = "append")) = true
                from by decide)] at hkv
            simp only [Bool.and_eq_true, Bool.not_eq_true'] at hkv
            rw [if_pos rfl, if_pos rfl, Part1.prependChild]
            rw [if_pos (show (!typeofIsObject value) = true from by rw [hkv.1.1]; rfl),
              if_pos (show (!typeofIsObject value) = true from by rw [hkv.1.1]; rfl)]
          rw [if_neg h3, if_neg h3]
          by_cases h4 : key = "children"
          · subst h4
            obtain rfl : lid = none := hlidn (Or.inl rfl)
            have hfalsy : truthy listener = false := hnull listener hpg
            rw [fieldOK, if_pos (show ("children" = "children") from rfl)] at hkv
            rw [if_pos (show (decide ("children" = "children") ||
                  decide ("children" = "child")) = true from by decide),
              if_pos (show (decide ("children" = "children") ||
                  decide ("children" = "child")) = true from by decide),
              Part1.setChildren]
            cases value with
            | null => rfl
            | arr xs =>
                rw [if_neg (show ¬(isNullV (JSValue.arr xs) = true) from by simp [isNullV]),
                  if_neg (show ¬(isNullV (JSValue.arr xs) = true) from by simp [isNullV])]
                rw [show HtmlJs.childrenSeq "children" (JSValue.arr xs) = xs from by
                  rw [HtmlJs.childrenSeq, if_pos (show ("children" = "children") from rfl)]]
                rw [if_pos (show ("children" = "children") from rfl)]
                dsimp only
                simp only [childrenValOK] at hkv
                exact c10_loop n dataT Hrender xs el listener listener _ hkv hfalsy
            | bool b => simp [childrenValOK] at hkv
            | num m => simp [childrenValOK] at hkv
            | str s => simp [childrenValOK] at hkv
            | obj fs => simp [childrenValOK] at hkv
            | func f => simp [childrenValOK] at hkv
          by_cases h5 : key = "child"
          · subst h5
            obtain rfl : lid = none := hlidn (Or.inr rfl)
            have hfalsy : truthy listener = false := hnull listener hpg
            rw [fieldOK, if_neg (show ¬("child" = "children") from by decide),
              if_pos (show ("child" = "child") from rfl)] at hkv
            simp only [Bool.or_eq_true, Bool.and_eq_true, Bool.not_eq_true'] at hkv
            rw [if_pos (show (decide ("child" = "children") ||
                  decide ("child" = "child")) = true from by decide),
              if_pos (show (decide ("child" = "children") ||
                  decide ("child" = "child")) = true from by decide),
              Part1.setChildren]
            cases value with
            | null => rfl
            | str s =>
                rcases hkv with hnv | hkv2
                · simp [isNullV] at hnv
                · rw [if_neg (show ¬(isNullV (JSValue.str s) = true) from by simp [isNullV]),
                    if_neg (show ¬(isNullV (JSValue.str s) = true) from by simp [isNullV])]
                  rw [show HtmlJs.childrenSeq "child" (JSValue.str s) = [JSValue.str s] from by
                    rw [HtmlJs.childrenSeq, if_neg (show ¬("child" = "children") from by decide)]]
                  rw [if_neg (show ¬("child" = "children") from by decide)]
                  dsimp only
                  exact c10_loop n dataT Hrender [JSValue.str s] el listener listener _
                    (by simp [goodTList, hkv2.1]) hfalsy
            | obj fs =>
                rcases hkv with hnv | hkv2
                · simp [isNullV] at hnv
                · rw [if_neg (show ¬(isNullV (JSValue.obj fs) = true) from by simp [isNullV]),
                    if_neg (show ¬(isNullV (JSValue.obj fs) = true) from by simp [isNullV])]
                  rw [show HtmlJs.childrenSeq "child" (JSValue.obj fs) = [JSValue.obj fs] from by
                    rw [HtmlJs.childrenSeq, if_neg (show ¬("child" = "children") from by decide)]]
                  rw [if_neg (show ¬("child" = "children") from by decide)]
                  dsimp only
                  exact c10_loop n dataT Hrender [JSValue.obj fs] el listener listener _
                    (by simp [goodTList, hkv2.1]) hfalsy
            | bool b => rcases hkv with hnv | hkv2 <;> simp [isNullV, goodT] at *
            | num m => rcases hkv with hnv | hkv2 <;> simp [isNullV, goodT] at *
            | arr xs => rcases hkv with hnv | hkv2 <;> simp [isNullV, goodT] at *
            | func f => rcases hkv with hnv | hkv2 <;> simp [isNullV, goodT] at *
          rw [if_neg (show ¬((decide (key = "children") || decide (key = "child")) = true)
              from by simp [h4, h5]),
            if_neg (show ¬((decide (key = "children") || decide (key = "child")) = true)
              from by simp [h4, h5])]
          by_cases h6 : key = "textContent"
          · rw [if_pos h6, if_pos h6, Part1.setTextContent]
          rw [if_neg h6, if_neg h6]
          by_cases h7 : key = "append"
          · subst h7
            rw [fieldOK, if_neg (show ¬("append" = "children") from by decide),
              if_neg (show ¬("append" = "child") from by decide),
              if_pos (show (decide ("append" = "prepend") || decide ("append" = "append")) = true
                from by decide)] at hkv
            simp only [Bool.and_eq_true, Bool.not_eq_true'] at hkv
            rw [if_pos rfl, if_pos rfl, Part1.appendChild]
            rw [if_pos (show (!typeofIsObject value) = true from by rw [hkv.1.1]; rfl),
              if_pos (show (!typeofIsObject value) = true from by rw [hkv.1.1]; rfl)]
          rw [if_neg h7, if_neg h7]

theorem fieldOK_safe (key : String) (h1 : ¬key = "children") (h2 : ¬key = "child")
    (h3 : ¬((decide (key = "prepend") || decide (key = "append")) = true)) (v : JSValue) :
    fieldOK key v = true := by
  rw [fieldOK, if_neg h1, if_neg h2, if_neg h3]

theorem fieldOK_func_safe (key : String) (v0 : JSValue)
    (hkv : fieldOK key v0 = true)
    (hf : isStringifiedFunction v0 = true ∨ isFuncV v0 = true) :
    ¬key = "children" ∧ ¬key = "child" ∧
      ¬((decide (key = "prepend") || decide (key = "append")) = true) := by
  refine ⟨?_, ?_, ?_⟩
  · intro h
    subst h
    rw [fieldOK, if_pos rfl] at hkv
    rcases hf with hf | hf <;> cases v0 <;>
      simp_all [childrenValOK, isStringifiedFunction, isFuncV]
  · intro h
    subst h
    rw [fieldOK, if_neg (show ¬("child" = "children") from by decide), if_pos rfl] at hkv
    rcases hf with hf | hf <;> cases v0 <;>
      simp_all [isNullV, goodT, isFuncV, isStringifiedFunction]
  · intro h3
    simp only [Bool.or_eq_true, decide_eq_true_eq] at h3
    rcases h3 with h | h <;> subst h <;>
      [rw [fieldOK, if_neg (show ¬("prepend" = "children") from by decide),
        if_neg (show ¬("prepend" = "child") from by decide),
        if_pos (show (decide ("prepend" = "prepend") || decide ("prepend" = "append")) = true
          from by decide)] at hkv;
       rw [fieldOK, if_neg (show ¬("append" = "children") from by decide),
        if_neg (show ¬("append" = "child") from by decide),
        if_pos (show (decide ("append" = "prepend") || decide ("append" = "append")) = true
          from by decide)] at hkv] <;>
      rcases hf with hf | hf <;> simp_all

theorem c10_attr (n : Nat) (dataT : List (String × JSValue))
    (hnull : nullHookFalsy dataT)
    (Hrender : ∀ t cbH cbP dH dP st, goodT t = true → truthy cbH = false →
      truthy cbP = false → isNum0 dH = false →
      HtmlJs.render n dataT t cbH dH st = Part1.render n dataT t cbP dP st) :
    ∀ (pairs : List (String × JSValue)) (el : Nat) (dH dP : JSValue) (st : RSt),
      goodTFields pairs = true →
      HtmlJs.attrLoop n dataT el pairs dH st = Part1.attrLoop n dataT el pairs dP st
  | [], el, dH, dP, st, _ => by
      rw [HtmlJs.attrLoop, Part1.attrLoop]
  | (key, v0) :: rest, el, dH, dP, st, hg => by
      rw [goodTFields] at hg
      simp only [Bool.and_eq_true] at hg
      rw [HtmlJs.attrLoop, Part1.attrLoop]
      cases hsf : isStringifiedFunction v0 with
      | true =>
          rw [if_pos (show (true = true) from rfl)]
          cases hp : parseStringifiedFunction v0 with
          | error msg => rfl
          | ok ev =>
              dsimp only
              have hsafe := fieldOK_func_safe key v0 hg.1 (Or.inl hsf)
              rw [Part1.processFunctionValue]
              cases hpg : proxyGet dataT (extractFirstParam (toSource ev)) with
              | thrown => rfl
              | val dv =>
                  dsimp only
                  cases hnr : isNullV (evalEvaluator ev dv) with
                  | true =>
                      rw [if_pos (show (true = true) from rfl)]
                      exact c10_attr n dataT hnull Hrender rest el dH dP _ hg.2
                  | false =>
                      rw [if_neg (show ¬(false = true) from by decide)]
                      rw [c10_setEA n dataT hnull Hrender el key (evalEvaluator ev dv)
                        (some (extractFirstParam (toSource ev))) dH dP _
                        (fieldOK_safe key hsafe.1 hsafe.2.1 hsafe.2.2 _)
                        (fun hor => absurd hor (not_or.mpr ⟨hsafe.1, hsafe.2.1⟩))]
                      cases hse : Part1.setElementAttribute n dataT el key
                          (evalEvaluator ev dv) (some (extractFirstParam (toSource ev))) dP
                          (pushBinding st (extractFirstParam (toSource ev))
                            ⟨el, .bfn ev, key⟩) with
                      | error e => rfl
                      | ok p =>
                          obtain ⟨u, st2⟩ := p
                          dsimp only
                          exact c10_attr n dataT hnull Hrender rest el dH dP st2 hg.2
      | false =>
          rw [if_neg (show ¬(false = true) from by decide)]
          dsimp only
          cases v0 with
          | func ev =>
              dsimp only
              have hsafe := fieldOK_func_safe key (.func ev) hg.1 (Or.inr rfl)
              rw [Part1.processFunctionValue]
              cases hpg : proxyGet dataT (extractFirstParam (toSource ev)) with
              | thrown => rfl
              | val dv =>
                  dsimp only
                  cases hnr : isNullV (evalEvaluator ev dv) with
                  | true =>
                      rw [if_pos (show (true = true) from rfl)]
                      exact c10_attr n dataT hnull Hrender rest el dH dP _ hg.2
                  | false =>
                      rw [if_neg (show ¬(false = true) from by decide)]
                      rw [c10_setEA n dataT hnull Hrender el key (evalEvaluator ev dv)
                        (some (extractFirstParam (toSource ev))) dH dP _
                        (fieldOK_safe key hsafe.1 hsafe.2.1 hsafe.2.2 _)
                        (fun hor => absurd hor (not_or.mpr ⟨hsafe.1, hsafe.2.1⟩))]
                      cases hse : Part1.setElementAttribute n dataT el key
                          (evalEvaluator ev dv) (some (extractFirstParam (toSource ev))) dP
                          (pushBinding st (extractFirstParam (toSource ev))
                            ⟨el, .bfn ev, key⟩) with
                      | error e => rfl
                      | ok p =>
                          obtain ⟨u, st2⟩ := p
                          dsimp only
                          exact c10_attr n dataT hnull Hrender rest el dH dP st2 hg.2
          | null =>
              dsimp only
              rw [if_pos (show (isNullV JSValue.null = true) from rfl),
                if_pos (show (isNullV JSValue.null = true) from rfl)]
              exact c10_attr n dataT hnull Hrender rest el dH dP st hg.2
          | bool b =>
              dsimp only
              rw [if_neg (show ¬(isNullV (JSValue.bool b) = true) from by simp [isNullV]),
                if_neg (show ¬(isNullV (JSValue.bool b) = true) from by simp [isNullV])]
              rw [c10_setEA n dataT hnull Hrender el key (.bool b) none dH dP st hg.1
                (fun _ => rfl)]
              cases hse : Part1.setElementAttribute n dataT el key (.bool b) none dP st with
              | error e => rfl
              | ok p =>
                  obtain ⟨u, st2⟩ := p
                  dsimp only
                  exact c10_attr n dataT hnull Hrender rest el dH dP st2 hg.2
          | num m =>
              dsimp only
              rw [if_neg (show ¬(isNullV (JSValue.num m) = true) from by simp [isNullV]),
                if_neg (show ¬(isNullV (JSValue.num m) = true) from by simp [isNullV])]
              rw [c10_setEA n dataT hnull Hrender el key (.num m) none dH dP st hg.1
                (fun _ => rfl)]
              cases hse : Part1.setElementAttribute n dataT el key (.num m) none dP st with
              | error e => rfl
              | ok p =>
                  obtain ⟨u, st2⟩ := p
                  dsimp only
                  exact c10_attr n dataT hnull Hrender rest el dH dP st2 hg.2
          | str s =>
              dsimp only
              rw [if_neg (show ¬(isNullV (JSValue.str s) = true) from by simp [isNullV]),
                if_neg (show ¬(isNullV (JSValue.str s) = true) from by simp [isNullV])]
              rw [c10_setEA n dataT hnull Hrender el key (.str s) none dH dP st hg.1
                (fun _ => rfl)]
              cases hse : Part1.setElementAttribute n dataT el key (.str s) none dP st with
              | error e => rfl
              | ok p =>
                  obtain ⟨u, st2⟩ := p
                  dsimp only
                  exact c10_attr n dataT hnull Hrender rest el dH dP st2 hg.2
          | arr xs =>
              dsimp only
              rw [if_neg (show ¬(isNullV (JSValue.arr xs) = true) from by simp [isNullV]),
                if_neg (show ¬(isNullV (JSValue.arr xs) = true) from by simp [isNullV])]
              rw [c10_setEA n dataT hnull Hrender el key (.arr xs) none dH dP st hg.1
                (fun _ => rfl)]
              cases hse : Part1.setElementAttribute n dataT el key (.arr xs) none dP st with
              | error e => rfl
              | ok p =>
                  obtain ⟨u, st2⟩ := p
                  dsimp only
                  exact c10_attr n dataT hnull Hrender rest el dH dP st2 hg.2
          | obj fs =>
              dsimp only
              rw [if_neg (show ¬(isNullV (JSValue.obj fs) = true) from by simp [isNullV]),
                if_neg (show ¬(isNullV (JSValue.obj fs) = true) from by simp [isNullV])]
              rw [c10_setEA n dataT hnull Hrender el key (.obj fs) none dH dP st hg.1
                (fun _ => rfl)]
              cases hse : Part1.setElementAttribute n dataT el key (.obj fs) none dP st with
              | error e => rfl
              | ok p =>
                  obtain ⟨u, st2⟩ := p
                  dsimp only
                  exact c10_attr n dataT hnull Hrender rest el dH dP st2 hg.2

theorem c10_prune_eq (fs : List (String × JSValue)) (hif : ifOK fs = true) :
    ((jsKeys (JSValue.obj fs)).contains "if" && !truthy (propOr (JSValue.obj fs) "if")) =
      (match getProp (JSValue.obj fs) "if" with
        | PropRes.val (JSValue.bool false) => true
        | _ => false) := by
  rw [ifOK] at hif
  cases hlf : lookupF "if" fs with
  | none =>
      rw [show ((jsKeys (JSValue.obj fs)).contains "if") = false from
        lookupF_none_contains "if" fs hlf]
      rw [show getProp (JSValue.obj fs) "if" = PropRes.undef from by rw [getProp, hlf]]
      rfl
  | some v =>
      rw [hlf] at hif
      rw [show ((jsKeys (JSValue.obj fs)).contains "if") = true from
        keys_contains_of_lookup fs "if" v hlf]
      rw [show getProp (JSValue.obj fs) "if" = PropRes.val v from by rw [getProp, hlf]]
      rw [show propOr (JSValue.obj fs) "if" = v from by rw [propOr, getProp, hlf]]
      cases v with
      | null => simp [truthy] at hif
      | bool b => cases b <;> rfl
      | num m =>
          have ht : truthy (JSValue.num m) = true := by simpa [truthy] using hif
          rw [ht]
          rfl
      | str s =>
          have ht : truthy (JSValue.str s) = true := by simpa [truthy] using hif
          rw [ht]
          rfl
      | arr xs => rfl
      | obj fs2 => rfl
      | func f => rfl

theorem c10_render_equiv : ∀ (n : Nat) (dataT : List (String × JSValue)),
    nullHookFalsy dataT →
    ∀ (t cbH cbP dH dP : JSValue) (st : RSt), goodT t = true → truthy cbH = false →
      truthy cbP = false → isNum0 dH = false →
      HtmlJs.render n dataT t cbH dH st = Part1.render n dataT t cbP dP st := by
  intro n
  induction n with
  | zero =>
      intro dataT hnull t cbH cbP dH dP st _ _ _ _
      rw [HtmlJs.render, Part1.render]
  | succ n IH =>
      intro dataT hnull t cbH cbP dH dP st hg hH hP hD
      cases t with
      | null =>
          rw [HtmlJs.render, Part1.render]
          rw [if_pos (show (isNullV JSValue.null = true) from rfl),
            if_pos (show ((!truthy JSValue.null) = true) from rfl)]
          all_goals intro s2 hx
          all_goals exact JSValue.noConfusion hx
      | str s =>
          have hs : (s != "") = true := by rw [goodT] at hg; exact hg
          rw [HtmlJs.render, Part1.render]
          rw [if_neg (show ¬(isNullV (JSValue.str s) = true) from by simp [isNullV])]
          rw [if_neg (show ¬((!truthy (JSValue.str s)) = true) from by
            rw [show truthy (JSValue.str s) = (s != "") from rfl, hs]
            decide)]
          rw [show ((jsKeys (JSValue.str s)).contains "if" &&
              !truthy (propOr (JSValue.str s) "if")) = false from by
            rw [strKeys_no_if s]
            rfl]
          rw [if_neg (show ¬(false = true) from by decide)]
          rw [if_neg (show ¬((match getProp (JSValue.str s) "if" with
              | PropRes.val (JSValue.bool false) => true
              | _ => false) = true) from by
            rw [show getProp (JSValue.str s) "if" = PropRes.undef from rfl]
            decide)]
      | obj fs =>
          rw [goodT] at hg
          simp only [Bool.and_eq_true] at hg
          obtain ⟨⟨hif, htag⟩, hfields⟩ := hg
          rw [HtmlJs.render, Part1.render]
          rw [if_neg (show ¬(isNullV (JSValue.obj fs) = true) from by simp [isNullV])]
          rw [if_neg (show ¬((!truthy (JSValue.obj fs)) = true) from by simp [truthy])]
          rw [c10_prune_eq fs hif]
          cases hpc : (match getProp (JSValue.obj fs) "if" with
              | PropRes.val (JSValue.bool false) => true
              | _ => false) with
          | true => rw [if_pos rfl, if_pos rfl]
          | false =>
              rw [if_neg (show ¬(false = true) from by decide),
                if_neg (show ¬(false = true) from by decide)]
              dsimp only
              cases hlt : lookupF "tagName" fs with
              | none =>
                  rw [show getProp (JSValue.obj fs) "tagName" = PropRes.undef from by
                    rw [getProp, hlt]]
                  rw [show propOr (JSValue.obj fs) "tagName" = JSValue.null from by
                    rw [propOr, getProp, hlt]]
                  dsimp only
                  rw [if_neg (show ¬(truthy JSValue.null = true) from by decide)]
                  rw [c10_attr n dataT hnull (IH dataT hnull)
                    (jsEnumPairs (JSValue.obj fs)) _ dH dP _ hfields]
                  cases hal : Part1.attrLoop n dataT
                      (domCreateElem st.dom (getNamespace "div") "div").1
                      (jsEnumPairs (JSValue.obj fs)) dP
                      ⟨st.bindings, (domCreateElem st.dom (getNamespace "div") "div").2⟩ with
                  | error e => rfl
                  | ok p =>
                      obtain ⟨u, st2⟩ := p
                      dsimp only
                      rw [if_neg (show ¬(truthy cbH = true) from by rw [hH]; decide),
                        if_neg (show ¬(isNum0 dH = true) from by rw [hD]; decide),
                        if_neg (show ¬(truthy cbP = true) from by rw [hP]; decide)]
              | some tv =>
                  rw [tagOK] at htag
                  rw [hlt] at htag
                  cases tv with
                  | str ts =>
                      have hts : (ts != "") = true := by simpa using htag
                      rw [show getProp (JSValue.obj fs) "tagName" =
                          PropRes.val (JSValue.str ts) from by rw [getProp, hlt]]
                      rw [show propOr (JSValue.obj fs) "tagName" = JSValue.str ts from by
                        rw [propOr, getProp, hlt]]
                      dsimp only
                      rw [if_pos (show truthy (JSValue.str ts) = true from by
                        rw [show truthy (JSValue.str ts) = (ts != "") from rfl, hts])]
                      rw [c10_attr n dataT hnull (IH dataT hnull)
                        (jsEnumPairs (JSValue.obj fs)) _ dH dP _ hfields]
                      cases hal : Part1.attrLoop n dataT
                          (domCreateElem st.dom (getNamespace (jsToString (JSValue.str ts)))
                            (jsToString (JSValue.str ts))).1
                          (jsEnumPairs (JSValue.obj fs)) dP
                          ⟨st.bindings,
                            (domCreateElem st.dom (getNamespace (jsToString (JSValue.str ts)))
                              (jsToString (JSValue.str ts))).2⟩ with
                      | error e => rfl
                      | ok p =>
                          obtain ⟨u, st2⟩ := p
                          dsimp only
                          rw [if_neg (show ¬(truthy cbH = true) from by rw [hH]; decide),
                            if_neg (show ¬(isNum0 dH = true) from by rw [hD]; decide),
                            if_neg (show ¬(truthy cbP = true) from by rw [hP]; decide)]
                  | null => simp at htag
                  | bool b => simp at htag
                  | num m => simp at htag
                  | arr xs => simp at htag
                  | obj fs2 => simp at htag
                  | func f => simp at htag
          all_goals intro s2 hx
          all_goals exact JSValue.noConfusion hx
      | bool b => simp [goodT] at hg
      | num m => simp [goodT] at hg
      | arr xs => simp [goodT] at hg
      | func f => simp [goodT] at hg

/-- C10 counterexample: the empty-string descriptor.  The monolithic
variant only skips null, so it renders a text node; the refactored
variant skips every falsy template and returns null without touching the
document. -/
theorem c10_counterexample :
    HtmlJs.render 1 [] (.str "") .null .null ⟨[], emptyDom⟩ =
      .ok (.node 0, ⟨[], ⟨[(0, .text "")], 1⟩⟩) ∧
    Part1.render 1 [] (.str "") .null .null ⟨[], emptyDom⟩ =
      .ok (.rnull, ⟨[], emptyDom⟩) ∧
    (Except.ok (RenderResult.node 0, (⟨[], ⟨[(0, DomNode.text "")], 1⟩⟩ : RSt)) :
        Except JErr (RenderResult × RSt)) ≠
      Except.ok (RenderResult.rnull, (⟨[], emptyDom⟩ : RSt)) := by
  refine ⟨?_, ?_, by simp [emptyDom]⟩
  · show HtmlJs.render (0 + 1) [] (.str "") .null .null ⟨[], emptyDom⟩ = _
    rw [HtmlJs.render]
    rw [if_neg (show ¬(isNullV (JSValue.str "") = true) from by decide)]
    rw [show ((jsKeys (JSValue.str "")).contains "if" &&
        !truthy (propOr (JSValue.str "") "if")) = false from rfl]
    rw [if_neg (show ¬(false = true) from by decide)]
    rfl
  · show Part1.render (0 + 1) [] (.str "") .null .null ⟨[], emptyDom⟩ = _
    rw [Part1.render]
    rw [if_pos (show ((!truthy (JSValue.str "")) = true) from rfl)]

/-- C10 (amended): the two render variants agree — same result
(null/undefined/node), same document, same registered bindings — on the
agreement fragment: templates that are null, nonempty strings, or objects
whose `if` field is absent, strictly false or truthy, whose `tagName` is
absent or a nonempty string, whose children/child values are (arrays of)
such templates, whose prepend/append values are non-objects, with no
function-valued children-family fields; under a store whose slice for the
absent listenerId is falsy, falsy callback arguments and a depth that is
not the number 0.  Outside the fragment they genuinely diverge (see the
C10 counterexample). -/
theorem c10_amended (n : Nat) (dataT : List (String × JSValue))
    (hnull : nullHookFalsy dataT)
    (t cbH cbP dH dP : JSValue) (st : RSt)
    (hg : goodT t = true) (hH : truthy cbH = false) (hP : truthy cbP = false)
    (hD : isNum0 dH = false) :
    HtmlJs.render n dataT t cbH dH st = Part1.render n dataT t cbP dP st :=
  c10_render_equiv n dataT hnull t cbH cbP dH dP st hg hH hP hD

/-- C10 witness: a concrete object descriptor rendered by both variants
from the empty store, with different (falsy) callback and depth
arguments. -/
theorem c10_witness :
    nullHookFalsy [] ∧
    goodT (.obj [("textContent", .str "hi")]) = true ∧
    truthy JSValue.null = false ∧
    truthy (JSValue.bool false) = false ∧
    isNum0 JSValue.null = false ∧
    HtmlJs.render 2 [] (.obj [("textContent", .str "hi")]) .null .null ⟨[], emptyDom⟩ =
      Part1.render 2 [] (.obj [("textContent", .str "hi")]) (.bool false) (.num 0)
        ⟨[], emptyDom⟩ := by
  have h1 : nullHookFalsy [] := by
    intro v h
    injection (show GetRes.val JSValue.null = GetRes.val v from h) with h2
    rw [← h2]
    rfl
  have h2 : goodT (.obj [("textContent", .str "hi")]) = true := by
    simp [goodT, goodTFields, fieldOK, ifOK, tagOK, lookupF, childrenValOK]
  exact ⟨h1, h2, rfl, rfl, rfl,
    c10_amended 2 [] h1 (.obj [("textContent", .str "hi")]) .null (.bool false) .null
      (.num 0) ⟨[], emptyDom⟩ h2 rfl rfl rfl⟩
